import Mathlib

/-
  Verification of the Compose-to-Unikernel Orchestration Core of kraftkit.

  Shallow embedding of:
  - tui/processtree (getNextReadyChildren scheduling)
  - oci manifest assembly (Save, SetLabel, SetKernel/SetKernelDbg/SetInitrd,
    OSFeatures normalization)
  - initrd dockerfile CPIO packing (hard-link handling)
  - compose AssignIPs and dependency ordering
  - the compose create per-service loop
-/

set_option maxHeartbeats 1000000

namespace PTree

/-- SpinnerProcessStatus from tui/processtree/processtree.go. -/
inductive SpinnerStatus where
  | pending
  | running
  | runningChild
  | runningButAChildHasFailed
  | failed
  | failedChild
  | success
deriving DecidableEq, Repr

/-- ProcessTreeItem restricted to the fields getNextReadyChildren reads:
status and children. -/
inductive PTItem where
  | node (status : SpinnerStatus) (children : List PTItem)
deriving Repr

def PTItem.status : PTItem → SpinnerStatus
  | .node s _ => s

def PTItem.children : PTItem → List PTItem
  | .node _ c => c

/-- Count of immediate children with status Failed or FailedChild
(the failed counter of the Go loop). -/
def failedCount (children : List PTItem) : Nat :=
  (children.filter
    (fun c => c.status == SpinnerStatus.failed || c.status == SpinnerStatus.failedChild)).length

/-- Count of immediate children with status Success (the completed counter;
the Go loop counts Success in the else-if branch after the failed check). -/
def completedCount (children : List PTItem) : Nat :=
  (children.filter
    (fun c => !(c.status == SpinnerStatus.failed || c.status == SpinnerStatus.failedChild) &&
      c.status == SpinnerStatus.success)).length

/-- The subprocess-append part of the Go loop body: in parallel mode all
subprocesses are appended, in serial mode at most the first one. -/
def appendSubs (parallel : Bool) (cs : List PTItem)
    (items subprocesses : List PTItem) : List PTItem :=
  if cs.length > 0 then
    if parallel then items ++ subprocesses
    else
      match subprocesses with
      | [] => items
      | s :: _ => items ++ [s]
  else items

/-- The non-recursive part of the Go loop body: given the accumulated items
and the recursively computed subprocesses of one tree item, produce the new
accumulated items (append subprocesses per mode, then append the item itself
when the eligibility condition holds). -/
def stepItems (parallel : Bool) (st : SpinnerStatus) (cs : List PTItem)
    (items subprocesses : List PTItem) : List PTItem :=
  let items1 := appendSubs parallel cs items subprocesses
  let failed := failedCount cs
  let completed := completedCount cs
  if subprocesses.length = 0 && failed = 0 &&
      (parallel || (items1.length = 0 && !parallel)) &&
      completed = cs.length &&
      (st == SpinnerStatus.pending || st == SpinnerStatus.runningChild) then
    items1 ++ [PTItem.node st cs]
  else items1

/-- ProcessTree.getNextReadyChildren with the items accumulator made explicit;
mirrors the Go loop body including the order of appends and the final
eligibility condition. -/
def getNextReady (parallel : Bool) : List PTItem → List PTItem → List PTItem
  | [], items => items
  | PTItem.node st cs :: rest, items =>
    getNextReady parallel rest
      (stepItems parallel st cs items
        (if cs.length > 0 then getNextReady parallel cs [] else []))
termination_by l _ => sizeOf l
decreasing_by
  all_goals simp_wf
  all_goals omega

/-- Entry point: pt.getNextReadyChildren(tree) starts with an empty items list. -/
def nextReadyChildren (parallel : Bool) (tree : List PTItem) : List PTItem :=
  getNextReady parallel tree []

/-- A node is schedulable per the claim: every child Success, own status
Pending or RunningChild. -/
def ReadyOK (n : PTItem) : Prop :=
  (∀ c ∈ n.children, c.status = SpinnerStatus.success) ∧
    (n.status = SpinnerStatus.pending ∨ n.status = SpinnerStatus.runningChild)

theorem completedCount_eq_length {cs : List PTItem} (h : completedCount cs = cs.length) :
    ∀ c ∈ cs, c.status = SpinnerStatus.success := by
  unfold completedCount at h
  have hsub : List.Sublist
      (List.filter (fun c => !(c.status == SpinnerStatus.failed ||
        c.status == SpinnerStatus.failedChild) && c.status == SpinnerStatus.success) cs)
      cs := List.filter_sublist cs
  have heq := hsub.eq_of_length h
  intro c hc
  rw [← heq] at hc
  have := List.of_mem_filter hc
  simp only [Bool.and_eq_true, beq_iff_eq] at this
  exact this.2

theorem appendSubs_sound (parallel : Bool) (cs : List PTItem)
    (items subprocesses : List PTItem)
    (hacc : ∀ n ∈ items, ReadyOK n) (hsubs : ∀ n ∈ subprocesses, ReadyOK n) :
    ∀ n ∈ appendSubs parallel cs items subprocesses, ReadyOK n := by
  intro y hy
  unfold appendSubs at hy
  split at hy
  · split at hy
    · rcases List.mem_append.1 hy with h | h
      · exact hacc y h
      · exact hsubs y h
    · split at hy
      · exact hacc y hy
      · rcases List.mem_append.1 hy with h | h
        · exact hacc y h
        · rcases List.mem_singleton.1 h with rfl
          exact hsubs y (by simp_all)
  · exact hacc y hy

theorem stepItems_sound (parallel : Bool) (st : SpinnerStatus) (cs : List PTItem)
    (items subprocesses : List PTItem)
    (hacc : ∀ n ∈ items, ReadyOK n) (hsubs : ∀ n ∈ subprocesses, ReadyOK n) :
    ∀ n ∈ stepItems parallel st cs items subprocesses, ReadyOK n := by
  intro n hn
  unfold stepItems at hn
  simp only at hn
  have hitems1 := appendSubs_sound parallel cs items subprocesses hacc hsubs
  split at hn
  · rcases List.mem_append.1 hn with h | h
    · exact hitems1 n h
    · rcases List.mem_singleton.1 h with rfl
      rename_i hcond
      simp only [Bool.and_eq_true, decide_eq_true_eq, Bool.or_eq_true, beq_iff_eq] at hcond
      obtain ⟨⟨⟨⟨_, hfail⟩, _⟩, hcomp⟩, hstat⟩ := hcond
      constructor
      · intro c hc
        exact completedCount_eq_length hcomp c hc
      · simpa [PTItem.status] using hstat
  · exact hitems1 n hn

theorem getNextReady_sound (parallel : Bool) :
    ∀ (tree acc : List PTItem), (∀ n ∈ acc, ReadyOK n) →
      ∀ n ∈ getNextReady parallel tree acc, ReadyOK n := by
  intro tree acc
  induction tree, acc using getNextReady.induct parallel with
  | case1 items =>
    intro hacc n hn
    rw [getNextReady] at hn
    exact hacc n hn
  | case2 st cs rest items ih1 ih2 =>
    intro hacc n hn
    rw [getNextReady] at hn
    refine ih2 ?_ n hn
    apply stepItems_sound parallel st cs items _ hacc
    intro y hy
    split at hy
    · exact ih1 (fun z hz => absurd hz (List.not_mem_nil z)) y hy
    · cases hy

/-- Claim C8: getNextReadyChildren returns a node only when every one of its
children has status Success and the node itself is Pending or
StatusRunningChild; consequently a node with a child in Failed or FailedChild
is never returned as ready to run. -/
theorem c8_next_ready_parent_sound (parallel : Bool) (tree : List PTItem) :
    ∀ n ∈ nextReadyChildren parallel tree,
      ((∀ c ∈ n.children, c.status = SpinnerStatus.success) ∧
        (n.status = SpinnerStatus.pending ∨ n.status = SpinnerStatus.runningChild)) ∧
      ∀ c ∈ n.children,
        ¬(c.status = SpinnerStatus.failed ∨ c.status = SpinnerStatus.failedChild) := by
  intro n hn
  have h := getNextReady_sound parallel tree [] (by intro z hz; cases hz) n hn
  refine ⟨h, ?_⟩
  intro c hc hbad
  have := h.1 c hc
  rcases hbad with hb | hb <;> rw [this] at hb <;> cases hb

/-- Witness for c8_next_ready_parent_sound: a single pending leaf item is
returned as ready and satisfies the eligibility conditions. -/
theorem c8_witness :
    PTItem.node SpinnerStatus.pending [] ∈
        nextReadyChildren true [PTItem.node SpinnerStatus.pending []] ∧
    (((∀ c ∈ (PTItem.node SpinnerStatus.pending []).children,
          c.status = SpinnerStatus.success) ∧
        ((PTItem.node SpinnerStatus.pending []).status = SpinnerStatus.pending ∨
          (PTItem.node SpinnerStatus.pending []).status = SpinnerStatus.runningChild)) ∧
      ∀ c ∈ (PTItem.node SpinnerStatus.pending []).children,
        ¬(c.status = SpinnerStatus.failed ∨ c.status = SpinnerStatus.failedChild)) := by
  have hmem : PTItem.node SpinnerStatus.pending [] ∈
      nextReadyChildren true [PTItem.node SpinnerStatus.pending []] := by
    simp [nextReadyChildren, getNextReady, stepItems, appendSubs, failedCount,
      completedCount]
  exact ⟨hmem,
    c8_next_ready_parent_sound true [PTItem.node SpinnerStatus.pending []] _ hmem⟩

end PTree

namespace OCIm

/-- Association-map lookup (first binding wins; Go map keys are unique). -/
def lookupA (m : List (String × String)) (k : String) : Option String :=
  (m.find? (fun p => p.1 == k)).map (fun p => p.2)

/-- Association-map write: replace the binding if the key is present,
otherwise append it. -/
def setA (m : List (String × String)) (k v : String) : List (String × String) :=
  if m.any (fun p => p.1 == k) then
    m.map (fun p => if p.1 == k then (k, v) else p)
  else m ++ [(k, v)]

/-- Lexicographic character-list comparison; Go byte-wise string order
coincides with this codepoint order on valid UTF-8. -/
def charsLt : List Char → List Char → Bool
  | [], [] => false
  | [], _ :: _ => true
  | _ :: _, [] => false
  | a :: as, b :: bs => if a < b then true else if b < a then false else charsLt as bs

/-- Go string comparison a < b. -/
def goStringLt (a b : String) : Bool := charsLt a.data b.data

/-- Go strconv.Atoi: optional sign, decimal digits, 64-bit signed range. -/
def atoi? (s : String) : Option Int :=
  match s.data with
  | [] => none
  | c :: cs =>
    let neg := c = '-'
    let ds := if c = '-' || c = '+' then cs else c :: cs
    if ds.length > 0 && ds.all Char.isDigit then
      let n : Nat := ds.foldl (fun acc d => acc * 10 + (d.toNat - 48)) 0
      if neg then
        if n ≤ 9223372036854775808 then some (-(n : Int)) else none
      else
        if n ≤ 9223372036854775807 then some (n : Int) else none
    else none

/-- The OSFeatures comparator from Manifest.Save: when both entries parse as
integers it returns y < z (numerically descending); a lone number is always
reported less; otherwise plain string comparison ascending. -/
def osFeaturesLess (si sj : String) : Bool :=
  match atoi? si with
  | some z =>
    match atoi? sj with
    | some y => decide (y < z)
    | none => true
  | none => goStringLt si sj

/-- Insert an element in front of the first entry it compares less-than;
models the sorted-output contract of sort.Slice for the given less function. -/
def insertLess (less : String → String → Bool) (x : String) : List String → List String
  | [] => [x]
  | y :: ys => if less x y then x :: y :: ys else y :: insertLess less x ys

/-- Insertion sort; models sort.Slice, whose contract is that the result is a
permutation of the input ordered by the less function. -/
def sortSlice (less : String → String → Bool) (l : List String) : List String :=
  l.foldr (insertLess less) []

/-- Helper for slices.Compact: drop elements equal to the previous kept one. -/
def compactAfter (x : String) : List String → List String
  | [] => []
  | y :: rest => if x == y then compactAfter x rest else y :: compactAfter y rest

/-- slices.Compact: collapse runs of consecutive equal elements, keeping the
first of each run. -/
def compactConsecutive : List String → List String
  | [] => []
  | x :: rest => x :: compactAfter x rest

/-- ImageConfig restricted to the fields Manifest.Save reads or writes. -/
structure ImageConfig where
  architecture : String
  os : String
  osVersion : String
  osFeatures : List String
  labels : List (String × String)
  cmd : List String
  env : List String
  rootfsDiffIds : List Nat
deriving DecidableEq, Repr

/-- A blob descriptor: digests of layer blobs are abstract identifiers. -/
structure BlobDesc where
  digestId : Nat
  annots : List (String × String)
deriving DecidableEq, Repr

/-- A manifest layer: blob descriptor, in-image destination, local temp path
(empty string means no local blob to push). -/
structure OLayer where
  blob : BlobDesc
  dst : String
  tmp : String
deriving DecidableEq, Repr

/-- The marshaled manifest content (schemaVersion 2, config blob content,
layer descriptors, annotations). -/
structure ManifestSpec where
  schemaVersion : Nat
  config : ImageConfig
  layers : List BlobDesc
  annots : List (String × String)
deriving DecidableEq, Repr

/-- SHA-256 digests modeled injectively by the content they address. -/
inductive Digest where
  | layerD (id : Nat)
  | configD (cfg : ImageConfig)
  | manifestD (m : ManifestSpec)
deriving DecidableEq, Repr

structure PlatformDesc where
  architecture : String
  os : String
  osVersion : String
  osFeatures : List String
deriving DecidableEq, Repr

structure Descriptor where
  digest : Digest
  annots : List (String × String)
  platform : Option PlatformDesc
deriving DecidableEq, Repr

/-- Manifest state: saved flag, image config, cached manifest and descriptor,
layers, manifest annotations, pushed map. -/
structure ManifestState where
  saved : Bool
  config : ImageConfig
  manifestM : Option ManifestSpec
  desc : Option Descriptor
  layers : List OLayer
  annots : List (String × String)
  pushed : List (Digest × Bool)
deriving DecidableEq, Repr

def emptyConfig : ImageConfig := ⟨"", "", "", [], [], [], [], []⟩

/-- NewManifest: empty layers, unsaved, empty config. -/
def NewManifest : ManifestState :=
  ⟨false, emptyConfig, none, none, [], [], []⟩

def storePushed (m : List (Digest × Bool)) (k : Digest) (v : Bool) : List (Digest × Bool) :=
  if m.any (fun p => p.1 == k) then
    m.map (fun p => if p.1 == k then (k, v) else p)
  else m ++ [(k, v)]

/-- Manifest.AddLayer: record the blob as not yet pushed, clear the saved
flag, append the layer. -/
def AddLayer (st : ManifestState) (layer : OLayer) : ManifestState :=
  { st with
    pushed := storePushed st.pushed (Digest.layerD layer.blob.digestId) false
    saved := false
    layers := st.layers ++ [layer] }

/-- Manifest.SetLabel: clear the saved flag and set the label. -/
def SetLabel (st : ManifestState) (k v : String) : ManifestState :=
  { st with
    saved := false
    config := { st.config with labels := setA st.config.labels k v } }

/-- Manifest.SetAnnotation. -/
def SetAnnot (st : ManifestState) (k v : String) : ManifestState :=
  { st with saved := false, annots := setA st.annots k v }

/-- Modelled from the spec: the well-known in-image destination paths and
layer annotation keys; the oci constant definitions are not under src/, the
values come from the spec's External Interfaces section. -/
def WellKnownKernelPath : String := "/unikraft/bin/kernel"

def WellKnownKernelDbgPath : String := "/unikraft/bin/kernel.dbg"

def WellKnownInitrdPath : String := "/unikraft/initrd"

def AnnotKernelPath : String := "org.unikraft.kernel.path"

def AnnotKernelDbgPath : String := "org.unikraft.kernel.dbg.path"

def AnnotKernelInitrdPath : String := "org.unikraft.initrd.path"

/-- Modelled from the spec: the kraftkit tool-version annotation key written
by Save (constant not under src/; exact value immaterial to the claims). -/
def AnnotKraftKitVersion : String := "sh.kraftkit.version"

/-- Modelled from the spec: NewLayerFromFile (not under src/) builds a fresh
layer for the file at path with the single provided annotation; the blob
digest is the content digest of the file, supplied here by the fileId
oracle; the temp path records the staged copy of the file. -/
def NewLayerFromFile (fileId : String → Nat) (path dst : String)
    (annotKey annotVal : String) : OLayer :=
  ⟨⟨fileId path, [(annotKey, annotVal)]⟩, dst, path⟩

/-- Manifest.SetKernel: drop every layer carrying the kernel-path annotation,
then add a fresh layer for path with that annotation set to the well-known
kernel destination. -/
def SetKernel (fileId : String → Nat) (st : ManifestState) (path : String) : ManifestState :=
  let kept := st.layers.filter (fun l => (lookupA l.blob.annots AnnotKernelPath).isNone)
  AddLayer { st with layers := kept }
    (NewLayerFromFile fileId path WellKnownKernelPath AnnotKernelPath WellKnownKernelPath)

/-- Manifest.SetKernelDbg: drop every layer carrying the debug-kernel
annotation, then add a fresh layer; note the source passes
WellKnownKernelPath as the layer destination while the annotation value is
WellKnownKernelDbgPath. -/
def SetKernelDbg (fileId : String → Nat) (st : ManifestState) (path : String) : ManifestState :=
  let kept := st.layers.filter (fun l => (lookupA l.blob.annots AnnotKernelDbgPath).isNone)
  AddLayer { st with layers := kept }
    (NewLayerFromFile fileId path WellKnownKernelPath AnnotKernelDbgPath WellKnownKernelDbgPath)

/-- Manifest.SetInitrd: drop every layer carrying the initrd annotation, then
add a fresh layer with the annotation set to the well-known initrd path. -/
def SetInitrd (fileId : String → Nat) (st : ManifestState) (path : String) : ManifestState :=
  let kept := st.layers.filter (fun l => (lookupA l.blob.annots AnnotKernelInitrdPath).isNone)
  AddLayer { st with layers := kept }
    (NewLayerFromFile fileId path WellKnownInitrdPath AnnotKernelInitrdPath WellKnownInitrdPath)

/-- External inputs of Save: the current RFC 3339 timestamp, the tool
version, and the three projections of the parsed reference (external
go-containerregistry collaborator). -/
structure SaveEnv where
  now : String
  toolVersion : String
  refCtx : String → String
  refFull : String → String
  refName : String → String

structure SaveOut where
  desc : Descriptor
  state : ManifestState
  storage : List Digest
deriving Repr

/-- Manifest.Save.  The storage handler is modeled as the list of digests it
knows; SaveDescriptor/AddBlob append a digest (AlreadyExists swallowed);
DigestInfo is membership.  Mirrors the code path: cached-descriptor
short-circuits, RootFS diff-ids, in-place OSFeatures sort, config marshal,
annotation writes, manifest/descriptor generation only when nil, descriptor
save, conditional config-blob save, layer pushes. -/
def Save (env : SaveEnv) (st : ManifestState) (storage : List Digest)
    (fullref : String) : SaveOut :=
  if st.saved && st.desc.isSome then
    ⟨st.desc.getD ⟨Digest.layerD 0, [], none⟩, st, storage⟩
  else if st.desc.isSome && decide ((st.desc.getD ⟨Digest.layerD 0, [], none⟩).digest ∈ storage) then
    ⟨st.desc.getD ⟨Digest.layerD 0, [], none⟩, st, storage⟩
  else
    let layers := st.layers.map (fun l => l.blob)
    let diffIds := st.layers.map (fun l => l.blob.digestId)
    let config1 :=
      if diffIds.length > 0 then { st.config with rootfsDiffIds := diffIds }
      else st.config
    let config2 := { config1 with osFeatures := sortSlice osFeaturesLess config1.osFeatures }
    let platform : PlatformDesc :=
      ⟨config2.architecture, config2.os, config2.osVersion,
        compactConsecutive config2.osFeatures⟩
    let annots1 := setA st.annots "org.opencontainers.image.ref.name" (env.refCtx fullref)
    let annots2 := setA annots1 "org.opencontainers.image.created" env.now
    let annots3 := setA annots2 AnnotKraftKitVersion env.toolVersion
    let annots4 := setA annots3 "containerd.io/image.name" (env.refFull fullref)
    let manifest2 :=
      match st.manifestM with
      | some m => m
      | none => ⟨2, config2, layers, annots4⟩
    let desc2 :=
      match st.desc with
      | some d => d
      | none => ⟨Digest.manifestD manifest2, manifest2.annots, some platform⟩
    let storage1 := if desc2.digest ∈ storage then storage else storage ++ [desc2.digest]
    let storage2 :=
      if Digest.configD config2 ∈ storage1 then storage1
      else storage1 ++ [Digest.configD config2]
    let st' : ManifestState :=
      { st with
        saved := true
        config := config2
        manifestM := some manifest2
        desc := some desc2
        annots := annots4 }
    let storage3 := st.layers.foldl
      (fun acc l =>
        if l.tmp == "" then acc
        else if ((st.pushed.find? (fun p => p.1 == Digest.layerD l.blob.digestId)).map
            (fun p => p.2)).getD false then acc
        else if Digest.layerD l.blob.digestId ∈ acc then acc
        else acc ++ [Digest.layerD l.blob.digestId]) storage2
    ⟨desc2, st', storage3⟩

theorem insertLess_perm (less : String → String → Bool) (x : String) (l : List String) :
    (insertLess less x l).Perm (x :: l) := by
  induction l with
  | nil => simp [insertLess]
  | cons y ys ih =>
    unfold insertLess
    split
    · exact List.Perm.refl _
    · exact ((ih.cons y).trans (List.Perm.swap x y ys)).symm.symm

theorem sortSlice_perm (less : String → String → Bool) (l : List String) :
    (sortSlice less l).Perm l := by
  induction l with
  | nil => simp [sortSlice]
  | cons y ys ih =>
    unfold sortSlice
    simp only [List.foldr_cons]
    exact (insertLess_perm less y _).trans (ih.cons y)

theorem insertLess_chain (less : String → String → Bool) (x : String) (l : List String)
    (hasym : ∀ b ∈ l, less x b = true → less b x = false)
    (hc : List.Chain' (fun a b => less b a = false) l) :
    List.Chain' (fun a b => less b a = false) (insertLess less x l) := by
  induction l with
  | nil => simp [insertLess]
  | cons y ys ih =>
    unfold insertLess
    split
    · rename_i hxy
      exact List.chain'_cons.2 ⟨hasym y (List.mem_cons_self y ys) hxy, hc⟩
    · rename_i hxy
      have htail := ih (fun b hb h => hasym b (List.mem_cons_of_mem y hb) h) hc.tail
      have hyx : less x y = false := Bool.eq_false_iff.2 (fun h => by simp [h] at hxy)
      have hstep : ∀ (w : String) (ws : List String), insertLess less x (w :: ws) =
          if less x w then x :: w :: ws else w :: insertLess less x ws := fun w ws => rfl
      rcases ys with _ | ⟨z, zs⟩
      · simp only [insertLess]
        exact List.chain'_cons.2 ⟨hyx, List.chain'_singleton x⟩
      · by_cases hxz : less x z = true
        · rw [hstep, if_pos hxz] at htail ⊢
          exact List.chain'_cons.2 ⟨hyx, htail⟩
        · rw [hstep, if_neg hxz] at htail ⊢
          exact List.chain'_cons.2 ⟨(List.chain'_cons.1 hc).1, htail⟩

theorem insertLess_mem (less : String → String → Bool) (x : String) (l : List String) :
    ∀ a ∈ insertLess less x l, a = x ∨ a ∈ l := by
  intro a ha
  have := (insertLess_perm less x l).mem_iff.1 ha
  simpa using this

theorem sortSlice_chain (less : String → String → Bool) (l : List String)
    (hasym : ∀ a ∈ l, ∀ b ∈ l, less a b = true → less b a = false) :
    List.Chain' (fun a b => less b a = false) (sortSlice less l) := by
  induction l with
  | nil => simp [sortSlice]
  | cons y ys ih =>
    unfold sortSlice
    simp only [List.foldr_cons]
    have hmem : ∀ a ∈ sortSlice less ys, a ∈ ys := by
      intro a ha
      exact (sortSlice_perm less ys).mem_iff.1 ha
    apply insertLess_chain
    · intro b hb h
      exact hasym y (List.mem_cons_self y ys) b (List.mem_cons_of_mem y (hmem b hb)) h
    · exact ih (fun a ha b hb h =>
        hasym a (List.mem_cons_of_mem y ha) b (List.mem_cons_of_mem y hb) h)

/-- Helper: the layers of a manifest that carry annotation key k. -/
def layersWith (k : String) (ls : List OLayer) : List OLayer :=
  ls.filter (fun l => (lookupA l.blob.annots k).isSome)

theorem layersWith_setter (k : String) (ls : List OLayer) (newLayer : OLayer)
    (hnew : (lookupA newLayer.blob.annots k).isSome) :
    layersWith k
      ((ls.filter (fun l => (lookupA l.blob.annots k).isNone)) ++ [newLayer]) =
      [newLayer] := by
  unfold layersWith
  rw [List.filter_append, List.filter_filter]
  have h1 : (ls.filter fun l =>
      (lookupA l.blob.annots k).isSome && (lookupA l.blob.annots k).isNone) = [] := by
    apply List.filter_eq_nil_iff.2
    intro a _
    cases h : lookupA a.blob.annots k <;> simp [h]
  rw [h1]
  simp [hnew]

/-- Claim C3: each of SetKernel, SetKernelDbg, SetInitrd removes every layer
carrying its well-known annotation and appends one fresh layer whose
annotation value is that operation's own well-known in-image destination
path; the three destinations are pairwise distinct; applying the same setter
twice leaves exactly one layer carrying the annotation. -/
theorem c3_setters_wellknown (fileId : String → Nat) (st : ManifestState) (p q : String) :
    ((SetKernel fileId st p).layers =
        st.layers.filter (fun l => (lookupA l.blob.annots AnnotKernelPath).isNone) ++
          [NewLayerFromFile fileId p WellKnownKernelPath AnnotKernelPath WellKnownKernelPath] ∧
      (SetKernelDbg fileId st p).layers =
        st.layers.filter (fun l => (lookupA l.blob.annots AnnotKernelDbgPath).isNone) ++
          [NewLayerFromFile fileId p WellKnownKernelPath AnnotKernelDbgPath WellKnownKernelDbgPath] ∧
      (SetInitrd fileId st p).layers =
        st.layers.filter (fun l => (lookupA l.blob.annots AnnotKernelInitrdPath).isNone) ++
          [NewLayerFromFile fileId p WellKnownInitrdPath AnnotKernelInitrdPath WellKnownInitrdPath]) ∧
    (layersWith AnnotKernelPath (SetKernel fileId st p).layers =
        [NewLayerFromFile fileId p WellKnownKernelPath AnnotKernelPath WellKnownKernelPath] ∧
      layersWith AnnotKernelDbgPath (SetKernelDbg fileId st p).layers =
        [NewLayerFromFile fileId p WellKnownKernelPath AnnotKernelDbgPath WellKnownKernelDbgPath] ∧
      layersWith AnnotKernelInitrdPath (SetInitrd fileId st p).layers =
        [NewLayerFromFile fileId p WellKnownInitrdPath AnnotKernelInitrdPath WellKnownInitrdPath]) ∧
    (lookupA (NewLayerFromFile fileId p WellKnownKernelPath AnnotKernelPath
        WellKnownKernelPath).blob.annots AnnotKernelPath = some WellKnownKernelPath ∧
      lookupA (NewLayerFromFile fileId p WellKnownKernelPath AnnotKernelDbgPath
        WellKnownKernelDbgPath).blob.annots AnnotKernelDbgPath = some WellKnownKernelDbgPath ∧
      lookupA (NewLayerFromFile fileId p WellKnownInitrdPath AnnotKernelInitrdPath
        WellKnownInitrdPath).blob.annots AnnotKernelInitrdPath = some WellKnownInitrdPath) ∧
    (WellKnownKernelPath ≠ WellKnownKernelDbgPath ∧
      WellKnownKernelPath ≠ WellKnownInitrdPath ∧
      WellKnownKernelDbgPath ≠ WellKnownInitrdPath) ∧
    ((layersWith AnnotKernelPath (SetKernel fileId (SetKernel fileId st q) p).layers).length = 1 ∧
      (layersWith AnnotKernelDbgPath
        (SetKernelDbg fileId (SetKernelDbg fileId st q) p).layers).length = 1 ∧
      (layersWith AnnotKernelInitrdPath
        (SetInitrd fileId (SetInitrd fileId st q) p).layers).length = 1) := by
  have hk : ∀ r, (SetKernel fileId st r).layers =
      st.layers.filter (fun l => (lookupA l.blob.annots AnnotKernelPath).isNone) ++
        [NewLayerFromFile fileId r WellKnownKernelPath AnnotKernelPath WellKnownKernelPath] := by
    intro r; rfl
  have hd : ∀ r, (SetKernelDbg fileId st r).layers =
      st.layers.filter (fun l => (lookupA l.blob.annots AnnotKernelDbgPath).isNone) ++
        [NewLayerFromFile fileId r WellKnownKernelPath AnnotKernelDbgPath WellKnownKernelDbgPath] := by
    intro r; rfl
  have hi : ∀ r, (SetInitrd fileId st r).layers =
      st.layers.filter (fun l => (lookupA l.blob.annots AnnotKernelInitrdPath).isNone) ++
        [NewLayerFromFile fileId r WellKnownInitrdPath AnnotKernelInitrdPath WellKnownInitrdPath] := by
    intro r; rfl
  have hlook : ∀ a v (r : String), lookupA
      (NewLayerFromFile fileId r WellKnownKernelPath a v).blob.annots a = some v := by
    intro a v r
    simp [NewLayerFromFile, lookupA]
  refine ⟨⟨hk p, hd p, hi p⟩, ⟨?_, ?_, ?_⟩, ?_, by decide, ?_, ?_, ?_⟩
  · rw [hk p]
    exact layersWith_setter _ _ _ (by simp [NewLayerFromFile, lookupA])
  · rw [hd p]
    exact layersWith_setter _ _ _ (by simp [NewLayerFromFile, lookupA])
  · rw [hi p]
    exact layersWith_setter _ _ _ (by simp [NewLayerFromFile, lookupA])
  · exact ⟨hlook _ _ p, hlook _ _ p, by simp [NewLayerFromFile, lookupA]⟩
  · rw [show (SetKernel fileId (SetKernel fileId st q) p).layers =
        ((SetKernel fileId st q).layers.filter
          (fun l => (lookupA l.blob.annots AnnotKernelPath).isNone)) ++
          [NewLayerFromFile fileId p WellKnownKernelPath AnnotKernelPath WellKnownKernelPath]
      from rfl]
    rw [layersWith_setter _ _ _ (by simp [NewLayerFromFile, lookupA])]
    rfl
  · rw [show (SetKernelDbg fileId (SetKernelDbg fileId st q) p).layers =
        ((SetKernelDbg fileId st q).layers.filter
          (fun l => (lookupA l.blob.annots AnnotKernelDbgPath).isNone)) ++
          [NewLayerFromFile fileId p WellKnownKernelPath AnnotKernelDbgPath WellKnownKernelDbgPath]
      from rfl]
    rw [layersWith_setter _ _ _ (by simp [NewLayerFromFile, lookupA])]
    rfl
  · rw [show (SetInitrd fileId (SetInitrd fileId st q) p).layers =
        ((SetInitrd fileId st q).layers.filter
          (fun l => (lookupA l.blob.annots AnnotKernelInitrdPath).isNone)) ++
          [NewLayerFromFile fileId p WellKnownInitrdPath AnnotKernelInitrdPath WellKnownInitrdPath]
      from rfl]
    rw [layersWith_setter _ _ _ (by simp [NewLayerFromFile, lookupA])]
    rfl

/-- Claim-side ordering, following the spec sentence for C2: all-digit tokens
compare numerically as integers, other pairs lexicographically; ascending. -/
def specOSFeatureLe (a b : String) : Bool :=
  match atoi? a, atoi? b with
  | some x, some y => decide (x ≤ y)
  | _, _ => !goStringLt b a

/-- Claim-side property for C2: adjacent-sorted ascending per
specOSFeatureLe. -/
def specAscending (l : List String) : Bool :=
  (l.zip l.tail).all (fun p => specOSFeatureLe p.1 p.2)

def c2Env : SaveEnv := ⟨"2024-01-01T00:00:00Z", "v0.9.0", fun r => r, fun r => r, fun r => r⟩

def c2State : ManifestState :=
  { NewManifest with config := { emptyConfig with osFeatures := ["1", "2", "a", "a"] } }

def c2Out : SaveOut := Save c2Env c2State [] "app:latest"

/-- Claim C2 counterexample: saving a manifest whose OSFeatures are
["1", "2", "a", "a"] marshals the config with OSFeatures ["2", "1", "a", "a"]:
the numeric tokens are in descending order and the duplicate is retained
(slices.Compact is applied only to the platform descriptor, after the config
was marshaled), so the marshaled list is neither ascending nor
duplicate-free. -/
theorem c2_counterexample :
    c2Out.state.config.osFeatures = ["2", "1", "a", "a"] ∧
    c2Out.desc.platform = some ⟨"", "", "", ["2", "1", "a"]⟩ ∧
    specAscending ["2", "1", "a", "a"] = false ∧
    ¬ (["2", "1", "a", "a"] : List String).Nodup := by
  refine ⟨by decide, by decide, by decide, by decide⟩

/-- Claim C2 amended: on the non-cached Save path the OSFeatures list written
into the marshaled image config is the input permuted and adjacent-sorted by
the code comparator (numeric tokens descending, a numeric token before a
non-numeric one, other pairs lexicographically ascending), with duplicates
retained; deduplication of consecutive equal entries applies only to the
platform descriptor attached to the returned manifest descriptor. -/
theorem c2_amended (env : SaveEnv) (st : ManifestState) (storage : List Digest)
    (ref : String) (hdesc : st.desc = none)
    (hasym : ∀ a ∈ st.config.osFeatures, ∀ b ∈ st.config.osFeatures,
      osFeaturesLess a b = true → osFeaturesLess b a = false) :
    (Save env st storage ref).state.config.osFeatures =
      sortSlice osFeaturesLess st.config.osFeatures ∧
    ((Save env st storage ref).state.config.osFeatures).Perm st.config.osFeatures ∧
    List.Chain' (fun a b => osFeaturesLess b a = false)
      ((Save env st storage ref).state.config.osFeatures) ∧
    (Save env st storage ref).desc.platform =
      some ⟨st.config.architecture, st.config.os, st.config.osVersion,
        compactConsecutive (sortSlice osFeaturesLess st.config.osFeatures)⟩ := by
  have hfeat : (Save env st storage ref).state.config.osFeatures =
      sortSlice osFeaturesLess st.config.osFeatures := by
    unfold Save
    rw [hdesc]
    simp only [Option.isSome_none, Bool.and_false, Bool.false_and, if_false,
      Bool.false_eq_true, decide_False]
    split <;> rfl
  have hplat : (Save env st storage ref).desc.platform =
      some ⟨st.config.architecture, st.config.os, st.config.osVersion,
        compactConsecutive (sortSlice osFeaturesLess st.config.osFeatures)⟩ := by
    unfold Save
    rw [hdesc]
    simp only [Option.isSome_none, Bool.and_false, Bool.false_and, if_false,
      Bool.false_eq_true, decide_False]
    split <;> rfl
  refine ⟨hfeat, ?_, ?_, hplat⟩
  · rw [hfeat]
    exact sortSlice_perm _ _
  · rw [hfeat]
    exact sortSlice_chain _ _ hasym

/-- Witness for c2_amended at the concrete counterexample manifest. -/
theorem c2_witness :
    (c2State.desc = none ∧
      ∀ a ∈ c2State.config.osFeatures, ∀ b ∈ c2State.config.osFeatures,
        osFeaturesLess a b = true → osFeaturesLess b a = false) ∧
    ((Save c2Env c2State [] "app:latest").state.config.osFeatures =
        sortSlice osFeaturesLess c2State.config.osFeatures ∧
      ((Save c2Env c2State [] "app:latest").state.config.osFeatures).Perm
        c2State.config.osFeatures ∧
      List.Chain' (fun a b => osFeaturesLess b a = false)
        ((Save c2Env c2State [] "app:latest").state.config.osFeatures) ∧
      (Save c2Env c2State [] "app:latest").desc.platform =
        some ⟨c2State.config.architecture, c2State.config.os, c2State.config.osVersion,
          compactConsecutive (sortSlice osFeaturesLess c2State.config.osFeatures)⟩) :=
  ⟨⟨rfl, by decide⟩, c2_amended c2Env c2State [] "app:latest" rfl (by decide)⟩

def c1Env : SaveEnv := ⟨"2024-01-01T00:00:00Z", "v0.9.0", fun r => r, fun r => r, fun r => r⟩

def c1Layer : OLayer :=
  ⟨⟨7, [("org.unikraft.kernel.path", "/unikraft/bin/kernel")]⟩, "/unikraft/bin/kernel", "/tmp/kernel"⟩

def c1State : ManifestState := AddLayer NewManifest c1Layer

def c1First : SaveOut := Save c1Env c1State [] "unikraft.org/app:latest"

def c1Second : SaveOut :=
  Save c1Env (SetLabel c1First.state "com.example.k" "v") c1First.storage "unikraft.org/app:latest"

/-- Claim C1 counterexample: after a successful Save of a one-layer manifest,
applying SetLabel (a real mutation: the labels change and the saved flag is
cleared) and saving again returns a descriptor with the SAME digest, because
Save returns the cached descriptor whenever its digest still resolves against
the storage handler; the claim asserts the second digest differs. -/
theorem c1_counterexample :
    (SetLabel c1First.state "com.example.k" "v").config.labels ≠
      c1First.state.config.labels ∧
    (SetLabel c1First.state "com.example.k" "v").saved = false ∧
    c1Second.desc.digest = c1First.desc.digest := by
  refine ⟨by decide, by decide, by decide⟩

/-- Claim C1 amended: once Save has succeeded (saved flag set, descriptor
cached, digest resolvable in storage), calling Save again with no mutation
returns the identical descriptor and leaves state and storage unchanged; and
after an intervening SetLabel the second Save still returns the identical
descriptor with byte-identical digest (the cached descriptor is returned
because its digest still resolves against the storage handler). -/
theorem c1_amended (env env2 : SaveEnv) (st : ManifestState) (storage : List Digest)
    (ref k v : String) (d : Descriptor)
    (hsaved : st.saved = true) (hdesc : st.desc = some d) (hstor : d.digest ∈ storage) :
    (Save env st storage ref).desc = d ∧
    (Save env st storage ref).state = st ∧
    (Save env st storage ref).storage = storage ∧
    (Save env2 (SetLabel st k v) storage ref).desc = d ∧
    (Save env2 (SetLabel st k v) storage ref).storage = storage := by
  have h1 : Save env st storage ref = ⟨d, st, storage⟩ := by
    unfold Save
    rw [hdesc]
    simp [hsaved]
  have h2 : Save env2 (SetLabel st k v) storage ref = ⟨d, SetLabel st k v, storage⟩ := by
    unfold Save SetLabel
    simp only [hdesc]
    simp [hstor]
  rw [h1, h2]
  exact ⟨rfl, rfl, rfl, rfl, rfl⟩

/-- Witness for c1_amended at the concrete saved manifest. -/
theorem c1_witness :
    (c1First.state.saved = true ∧ c1First.state.desc = some c1First.desc ∧
      c1First.desc.digest ∈ c1First.storage) ∧
    ((Save c1Env c1First.state c1First.storage "unikraft.org/app:latest").desc = c1First.desc ∧
      (Save c1Env c1First.state c1First.storage "unikraft.org/app:latest").state =
        c1First.state ∧
      (Save c1Env c1First.state c1First.storage "unikraft.org/app:latest").storage =
        c1First.storage ∧
      (Save c1Env (SetLabel c1First.state "com.example.k" "v") c1First.storage
        "unikraft.org/app:latest").desc = c1First.desc ∧
      (Save c1Env (SetLabel c1First.state "com.example.k" "v") c1First.storage
        "unikraft.org/app:latest").storage = c1First.storage) :=
  ⟨⟨by decide, by decide, by decide⟩,
    c1_amended c1Env c1Env c1First.state c1First.storage "unikraft.org/app:latest"
      "com.example.k" "v" c1First.desc (by decide) (by decide) (by decide)⟩

end OCIm

namespace Initrd

/-- Split a character list on a separator (models strings.Split on one
separator character, used to model path element splitting). -/
def splitOnChar (sep : Char) : List Char → List (List Char)
  | [] => [[]]
  | c :: rest =>
    match splitOnChar sep rest with
    | [] => [[]]
    | h :: t => if c = sep then [] :: h :: t else (c :: h) :: t

/-- Element-stack processing of path components: drop empty and dot
components, resolve dotdot against the stack (or keep it when not rooted).
Models the documented semantics of Go filepath.Clean (an external stdlib
collaborator); the accumulator is kept reversed. -/
def cleanParts (rooted : Bool) (parts : List String) : List String :=
  (parts.foldl (fun acc part =>
    if part = "" || part = "." then acc
    else if part = ".." then
      match acc with
      | [] => if rooted then [] else [".."]
      | top :: rest => if top = ".." then part :: top :: rest else rest
    else part :: acc) []).reverse

/-- Go filepath.Clean for slash-separated paths. -/
def filepathClean (p : String) : String :=
  match p.data with
  | [] => "."
  | c :: _ =>
    let rooted := c = '/'
    let parts := (splitOnChar '/' p.data).map String.mk
    let cleaned := cleanParts rooted parts
    let joined := String.intercalate "/" cleaned
    if rooted then "/" ++ joined
    else if joined = "" then "." else joined

/-- Tar entry type flags used by the packer. -/
inductive TarType where
  | reg
  | link
  | symlink
  | dir
  | block
  | char
  | fifo
  | other
deriving DecidableEq, Repr

/-- A tar entry restricted to the fields the packer reads: name, link target,
type flag, permission bits, size, payload bytes. -/
structure TarEntry where
  name : String
  linkname : String
  typeflag : TarType
  perm : Nat
  size : Nat
  data : List Nat
deriving DecidableEq, Repr

/-- The cpio.Header fields the packer writes (ModTime omitted: wall-clock
time is not modeled and no claim mentions it). -/
structure CpioHeader where
  name : String
  mode : Nat
  size : Int
  linkname : String
  links : Nat
  inode : Int
deriving DecidableEq, Repr

structure CpioEntry where
  header : CpioHeader
  data : List Nat
deriving DecidableEq, Repr

/-- cpio newc type bits (cpio.TypeReg, TypeSymlink, TypeDir). -/
def cpioTypeReg : Nat := 0o100000

def cpioTypeSymlink : Nat := 0o120000

def cpioTypeDir : Nat := 0o040000

/-- The per-target count and inode of a hard-link group (inodeCount in
dockerfile.Build); the inode is a random 31-bit integer, modeled by the ino
supply indexed by allocation order. -/
structure InodeCount where
  count : Nat
  inode : Int
deriving DecidableEq, Repr

def lookupIC (m : List (String × InodeCount)) (k : String) : Option InodeCount :=
  (m.find? (fun p => p.1 == k)).map (fun p => p.2)

/-- Go map read with zero value on a missing key. -/
def getIC (m : List (String × InodeCount)) (k : String) : InodeCount :=
  (lookupIC m k).getD ⟨0, 0⟩

def setIC (m : List (String × InodeCount)) (k : String) (v : InodeCount) :
    List (String × InodeCount) :=
  if m.any (fun p => p.1 == k) then
    m.map (fun p => if p.1 == k then (k, v) else p)
  else m ++ [(k, v)]

/-- One step of the first pass over the tar stream: count hard-link groups.
For a LINK entry the key is the link target; for a REG entry the key is the
entry name.  A fresh group draws the next inode from the supply; note the
source quirk that a repeated REG name copies the inode found under the
current entry's Linkname (the Go zero value 0 when absent). -/
def pass1Step (ino : Nat → Int) (st : List (String × InodeCount) × Nat)
    (e : TarEntry) : List (String × InodeCount) × Nat :=
  match e.typeflag with
  | TarType.link =>
    match lookupIC st.1 e.linkname with
    | none => (setIC st.1 e.linkname ⟨1, ino st.2⟩, st.2 + 1)
    | some ic => (setIC st.1 e.linkname ⟨ic.count + 1, ic.inode⟩, st.2)
  | TarType.reg =>
    match lookupIC st.1 e.name with
    | none => (setIC st.1 e.name ⟨1, ino st.2⟩, st.2 + 1)
    | some ic => (setIC st.1 e.name ⟨ic.count + 1, (getIC st.1 e.linkname).inode⟩, st.2)
  | _ => st

def pass1 (ino : Nat → Int) (entries : List TarEntry) : List (String × InodeCount) :=
  (entries.foldl (pass1Step ino) ([], 0)).1

/-- Second pass: convert one tar entry to a CPIO entry (none when the entry
type is dropped with a warning).  Paths are normalized to relative
"./<clean>"; symlinks store the target as data; hard-links have size 0 and
carry the target in Linkname; REG and LINK entries take links and inode from
the first pass when present. -/
def convertEntry (fc : List (String × InodeCount)) (e : TarEntry) : Option CpioEntry :=
  let internal := "./" ++ filepathClean e.name
  let base : CpioHeader := ⟨internal, e.perm, (e.size : Int), "", 0, 0⟩
  match e.typeflag with
  | TarType.block => none
  | TarType.char => none
  | TarType.fifo => none
  | TarType.symlink =>
    some ⟨{ base with
      mode := base.mode ||| cpioTypeSymlink
      linkname := e.linkname
      size := (e.linkname.data.length : Int) },
      e.linkname.data.map Char.toNat⟩
  | TarType.link =>
    let h1 := { base with
      mode := base.mode ||| cpioTypeReg
      linkname := e.linkname
      size := (0 : Int) }
    let h2 :=
      match lookupIC fc e.linkname with
      | some ic => { h1 with links := ic.count, inode := ic.inode }
      | none => h1
    some ⟨h2, []⟩
  | TarType.reg =>
    let h1 := { base with
      mode := base.mode ||| cpioTypeReg
      linkname := e.linkname
      size := (e.size : Int) }
    let h2 :=
      match lookupIC fc e.name with
      | some ic => { h1 with links := ic.count, inode := ic.inode }
      | none => h1
    some ⟨h2, e.data⟩
  | TarType.dir =>
    some ⟨{ base with mode := base.mode ||| cpioTypeDir }, []⟩
  | TarType.other => none

/-- The CPIO stream produced by dockerfile.Build from a tar stream: first
pass counts hard-link groups, second pass converts entries in order. -/
def dockerfileBuildCpio (ino : Nat → Int) (entries : List TarEntry) : List CpioEntry :=
  entries.filterMap (convertEntry (pass1 ino entries))

/-- Claim C7: for a tar stream with a regular file a followed by a hard-link
entry b targeting a, the CPIO output has exactly two entries sharing one
inode (the first drawn from the supply), both with link count 2; the file
payload appears once (on the regular entry), and the hard-link entry has
data size 0 and stores the target path in Linkname. -/
theorem c7_hardlink_preserved (ino : Nat → Int) (a b : String) (perm1 perm2 sz : Nat)
    (payload : List Nat) :
    dockerfileBuildCpio ino
        [⟨a, "", TarType.reg, perm1, sz, payload⟩, ⟨b, a, TarType.link, perm2, 0, []⟩] =
      [⟨⟨"./" ++ filepathClean a, perm1 ||| cpioTypeReg, (sz : Int), "", 2, ino 0⟩, payload⟩,
        ⟨⟨"./" ++ filepathClean b, perm2 ||| cpioTypeReg, 0, a, 2, ino 0⟩, []⟩] ∧
    ((dockerfileBuildCpio ino
        [⟨a, "", TarType.reg, perm1, sz, payload⟩, ⟨b, a, TarType.link, perm2, 0, []⟩]).map
      (fun e => e.header.inode) = [ino 0, ino 0] ∧
    (dockerfileBuildCpio ino
        [⟨a, "", TarType.reg, perm1, sz, payload⟩, ⟨b, a, TarType.link, perm2, 0, []⟩]).map
      (fun e => e.header.links) = [2, 2] ∧
    (dockerfileBuildCpio ino
        [⟨a, "", TarType.reg, perm1, sz, payload⟩, ⟨b, a, TarType.link, perm2, 0, []⟩]).map
      (fun e => e.data) = [payload, []] ∧
    (dockerfileBuildCpio ino
        [⟨a, "", TarType.reg, perm1, sz, payload⟩, ⟨b, a, TarType.link, perm2, 0, []⟩]).map
      (fun e => e.header.linkname) = ["", a]) := by
  have h : dockerfileBuildCpio ino
        [⟨a, "", TarType.reg, perm1, sz, payload⟩, ⟨b, a, TarType.link, perm2, 0, []⟩] =
      [⟨⟨"./" ++ filepathClean a, perm1 ||| cpioTypeReg, (sz : Int), "", 2, ino 0⟩, payload⟩,
        ⟨⟨"./" ++ filepathClean b, perm2 ||| cpioTypeReg, 0, a, 2, ino 0⟩, []⟩] := by
    simp [dockerfileBuildCpio, pass1, pass1Step, lookupIC, setIC, getIC, convertEntry,
      List.filterMap]
  exact ⟨h, by rw [h]; rfl, by rw [h]; rfl, by rw [h]; rfl, by rw [h]; rfl⟩

end Initrd

namespace CreateCmd

inductive MachineState where
  | running
  | created
  | stopped
  | other
deriving DecidableEq, Repr

structure MachineInfo where
  name : String
  state : MachineState
  platform : String
deriving DecidableEq, Repr

/-- A compose service restricted to the fields the create loop reads. -/
structure SvcConf where
  name : String
  containerName : String
  image : String
deriving DecidableEq, Repr

/-- The external effects of one run of the per-service loop of
CreateOptions.Run: the machine list fetched before the loop, and oracles for
the outcome of remove.Run, buildService, ensureServiceIsPackaged,
createService, and machineController.Get.  ensureServiceIsPackaged's internal
error sources (catalog queries, pull, build, package) are collapsed into its
returned error, which the loop propagates unchanged. -/
structure World where
  machines : List MachineInfo
  removeErr : String → Option String
  buildErr : String → Option String
  ensurePackagedErr : String → Option String
  createErr : String → Option String
  getMachine : String → Except String MachineInfo

/-- Accumulated observable state of the loop: the recorded project machines
and the emitted log lines. -/
structure LoopState where
  projectMachines : List String
  logs : List String
deriving DecidableEq, Repr

def removeFirst (l : List String) (x : String) : List String :=
  match l with
  | [] => []
  | y :: ys => if y == x then ys else y :: removeFirst ys x

/-- The per-service loop of CreateOptions.Run (part_003 lines 296-348):
log the attempt; handle a first machine whose name matches (skip when
running/created, otherwise remove it, aborting the run if removal fails);
build (no image) or ensure packaged (image), aborting the run on error;
create the machine, logging the error and continuing on failure; query the
machine state, recording it when Created and aborting the run when the query
errors. -/
def createLoop (w : World) : List SvcConf → LoopState → Except String LoopState
  | [], st => Except.ok st
  | s :: rest, st =>
    let st := { st with logs := st.logs ++ ["creating service " ++ s.name] }
    let firstMatch := w.machines.find? (fun m => m.name == s.containerName)
    let afterMachine : Except String (Bool × LoopState) :=
      match firstMatch with
      | none => Except.ok (false, st)
      | some m =>
        if m.state = MachineState.running || m.state = MachineState.created then
          Except.ok (true, st)
        else
          match w.removeErr s.containerName with
          | some e => Except.error e
          | none =>
            Except.ok (false,
              { st with projectMachines := removeFirst st.projectMachines m.name })
    match afterMachine with
    | Except.error e => Except.error e
    | Except.ok (alreadyCreated, st) =>
      if alreadyCreated then createLoop w rest st
      else
        match (if s.image = "" then w.buildErr s.name else w.ensurePackagedErr s.name) with
        | some e => Except.error e
        | none =>
          let st :=
            match w.createErr s.name with
            | some _ =>
              { st with logs := st.logs ++ ["failed to create service " ++ s.name] }
            | none => st
          match w.getMachine s.containerName with
          | Except.ok m =>
            if m.state = MachineState.created then
              createLoop w rest
                { st with projectMachines := st.projectMachines ++ [m.name] }
            else createLoop w rest st
          | Except.error e => Except.error e

def c9s1 : SvcConf := ⟨"s1", "proj-s1", ""⟩

def c9s2 : SvcConf := ⟨"s2", "proj-s2", "img2:latest"⟩

def c9World : World :=
  ⟨[],
    fun _ => none,
    fun n => if n = "s1" then some "build failed for s1" else none,
    fun _ => none,
    fun _ => none,
    fun n => Except.ok ⟨n, MachineState.created, "qemu"⟩⟩

/-- Claim C9 counterexample: with two services where the first (build from
context) fails to build, the whole run aborts with the build error and the
second service is never attempted (its loop log line is absent), contradicting
the claim that a build failure aborts only that service while the remaining
services are attempted. -/
theorem c9_counterexample :
    createLoop c9World [c9s1, c9s2] ⟨[], []⟩ = Except.error "build failed for s1" ∧
    ∀ st : LoopState, createLoop c9World [c9s1, c9s2] ⟨[], []⟩ ≠ Except.ok st := by
  have h1 : createLoop c9World [c9s1, c9s2] ⟨[], []⟩ =
      Except.error "build failed for s1" := rfl
  refine ⟨h1, ?_⟩
  intro st h
  rw [h1] at h
  cases h

/-- Claim C9 amended: in the create loop, a failure of createService alone is
logged and the loop continues with the remaining services (when the follow-up
machine query succeeds); but a build failure (service without image) or a
packaging failure (service with image) aborts the entire run with that error,
rather than only that service. -/
theorem c9_amended (w : World) (s t : SvcConf) (e1 e2 : String) (rest : List SvcConf)
    (st : LoopState) (m : MachineInfo)
    (hns : w.machines.find? (fun m => m.name == s.containerName) = none)
    (himg : s.image ≠ "")
    (hpkg : w.ensurePackagedErr s.name = none)
    (hcreate : w.createErr s.name = some e1)
    (hget : w.getMachine s.containerName = Except.ok m)
    (hstate : m.state ≠ MachineState.created)
    (hnt : w.machines.find? (fun m => m.name == t.containerName) = none)
    (htimg : t.image = "")
    (htbuild : w.buildErr t.name = some e2) :
    createLoop w (s :: rest) st =
      createLoop w rest
        { st with logs := st.logs ++ ["creating service " ++ s.name] ++
            ["failed to create service " ++ s.name] } ∧
    createLoop w (t :: rest) st = Except.error e2 := by
  constructor
  · rw [createLoop]
    simp only [hns, hpkg, hcreate, hget, if_neg himg, if_neg hstate]
    simp
  · rw [createLoop]
    simp only [hnt, htimg, if_pos rfl, htbuild]
    simp

def c9WorldB : World :=
  ⟨[],
    fun _ => none,
    fun n => if n = "s1" then some "build failed for s1" else none,
    fun _ => none,
    fun n => if n = "s0" then some "create failed" else none,
    fun n => if n = "proj-s0" then Except.ok ⟨"proj-s0", MachineState.stopped, "qemu"⟩
      else Except.ok ⟨n, MachineState.created, "qemu"⟩⟩

/-- Witness for c9_amended on a concrete world with one create failure and
one build failure. -/
theorem c9_witness :
    (c9WorldB.machines.find?
        (fun m => m.name == (⟨"s0", "proj-s0", "img"⟩ : SvcConf).containerName) = none ∧
      (⟨"s0", "proj-s0", "img"⟩ : SvcConf).image ≠ "" ∧
      c9WorldB.ensurePackagedErr "s0" = none ∧
      c9WorldB.createErr "s0" = some "create failed" ∧
      c9WorldB.getMachine "proj-s0" = Except.ok ⟨"proj-s0", MachineState.stopped, "qemu"⟩ ∧
      (⟨"proj-s0", MachineState.stopped, "qemu"⟩ : MachineInfo).state ≠ MachineState.created ∧
      c9WorldB.machines.find? (fun m => m.name == c9s1.containerName) = none ∧
      c9s1.image = "" ∧ c9WorldB.buildErr c9s1.name = some "build failed for s1") ∧
    (createLoop c9WorldB [⟨"s0", "proj-s0", "img"⟩] ⟨[], []⟩ =
        createLoop c9WorldB []
          ⟨[], [] ++ ["creating service " ++ "s0"] ++ ["failed to create service " ++ "s0"]⟩ ∧
      createLoop c9WorldB [c9s1] ⟨[], []⟩ = Except.error "build failed for s1") := by
  refine ⟨⟨by decide, by decide, by decide, by decide, rfl, by decide, by decide,
    by decide, by decide⟩, ?_⟩
  have h := c9_amended c9WorldB ⟨"s0", "proj-s0", "img"⟩ c9s1 "create failed"
    "build failed for s1" [] ⟨[], []⟩ ⟨"proj-s0", MachineState.stopped, "qemu"⟩
    (by decide) (by decide) (by decide) (by decide) rfl (by decide)
    (by decide) (by decide) (by decide)
  exact h

end CreateCmd

namespace Compose

/-- Outcome of a Go function that can return normally, return an error,
panic (nil-map write), or loop forever (the unbounded scan, represented by
fuel exhaustion; unreachable for the fuel used, by pigeonhole). -/
inductive Res (α : Type) where
  | ok (a : α)
  | err (msg : String)
  | panicked
  | diverged
deriving Repr, DecidableEq

def Res.bind {α β : Type} : Res α → (α → Res β) → Res β
  | Res.ok a, f => f a
  | Res.err e, _ => Res.err e
  | Res.panicked, _ => Res.panicked
  | Res.diverged, _ => Res.diverged

/-- Dotted-quad printing of a 32-bit IPv4 value (net.IP.String). -/
def ipToString (ip : Nat) : String :=
  toString (ip / 16777216 % 256) ++ "." ++ toString (ip / 65536 % 256) ++ "." ++
    toString (ip / 256 % 256) ++ "." ++ toString (ip % 256)

/-- One decimal octet, 0-255, no leading zeros (net.ParseIP field rule). -/
def parseOctet (cs : List Char) : Option Nat :=
  match cs with
  | [] => none
  | c :: rest =>
    if !(c :: rest).all Char.isDigit then none
    else if c = '0' && rest ≠ [] then none
    else
      let n := (c :: rest).foldl (fun a d => a * 10 + (d.toNat - 48)) 0
      if n ≤ 255 then some n else none

/-- net.ParseIP restricted to dotted-quad IPv4 (the only form the claims
exercise; the IPv6 forms of the external net package are out of scope). -/
def parseIP4 (s : String) : Option Nat :=
  match Initrd.splitOnChar '.' s.data with
  | [a, b, c, d] =>
    match parseOctet a, parseOctet b, parseOctet c, parseOctet d with
    | some x, some y, some z, some w => some (((x * 256 + y) * 256 + z) * 256 + w)
    | _, _, _, _ => none
  | _ => none

/-- Decimal mask length, at most 32. -/
def parseMask (cs : List Char) : Option Nat :=
  match cs with
  | [] => none
  | _ =>
    if cs.all Char.isDigit then
      let n := cs.foldl (fun a d => a * 10 + (d.toNat - 48)) 0
      if n ≤ 32 then some n else none
    else none

def maskBase (ip m : Nat) : Nat := ip / 2 ^ (32 - m) * 2 ^ (32 - m)

/-- net.ParseCIDR for IPv4: the original address, the mask length, and the
masked network base address. -/
def parseCIDR (s : String) : Option (Nat × Nat × Nat) :=
  match Initrd.splitOnChar '/' s.data with
  | [ipPart, maskPart] =>
    match parseIP4 (String.mk ipPart), parseMask maskPart with
    | some ip, some m => some (ip, m, maskBase ip m)
    | _, _ => none
  | _ => none

/-- IPNet.Contains for the parsed subnet. -/
def ipContains (m base ip : Nat) : Bool := ip / 2 ^ (32 - m) == base / 2 ^ (32 - m)

/-- iputils.IncreaseIP: increment the 4-byte address with carry. -/
def increaseIP (ip : Nat) : Nat := (ip + 1) % 4294967296

structure IpamPool where
  subnet : String
  gateway : String
deriving DecidableEq, Repr

structure NetworkConf where
  name : String
  external : Bool
  ipam : List IpamPool
deriving DecidableEq, Repr

structure SvcNetAttach where
  ipv4 : String
deriving DecidableEq, Repr

/-- A compose service restricted to what AssignIPs reads: name and the
network attachment map (none models a nil map; a none attachment value
models a nil *ServiceNetworkConfig). -/
structure ServiceConf where
  name : String
  networks : Option (List (String × Option SvcNetAttach))
deriving DecidableEq, Repr

structure Project where
  networks : List (String × NetworkConf)
  services : List (String × ServiceConf)
deriving DecidableEq, Repr

def lookupNet (nets : List (String × NetworkConf)) (k : String) : Option NetworkConf :=
  (nets.find? (fun p => p.1 == k)).map (fun p => p.2)

/-- The usedAddresses map: outer keys are network names; a missing key is a
nil inner map. -/
abbrev Used := List (String × List String)

def lookupU (u : Used) (k : String) : Option (List String) :=
  (List.find? (fun p => p.1 == k) u).map (fun p => p.2)

/-- Go map write: replace the (unique) binding for k, or append it. -/
def setU : Used → String → List String → Used
  | [], k, v => [(k, v)]
  | p :: rest, k, v => if p.1 == k then (k, v) :: rest else p :: setU rest k v

/-- Write one address into the inner set of a network; writing into a nil
inner map is a Go runtime panic. -/
def addUsed (u : Used) (k a : String) : Res Used :=
  match lookupU u k with
  | none => Res.panicked
  | some l => Res.ok (setU u k (a :: l))

/-- Join the IPAM configs of a network: later non-empty subnets and gateways
override the first config. -/
def joinIpam (c0 : IpamPool) (rest : List IpamPool) : IpamPool :=
  rest.foldl (fun acc c =>
    ⟨if c.subnet ≠ "" then c.subnet else acc.subnet,
      if c.gateway ≠ "" then c.gateway else acc.gateway⟩) c0

/-- First pass of AssignIPs over the networks: skip external or IPAM-less
networks; otherwise join the IPAM configs, validate the subnet, default or
validate the gateway, reserve the gateway and the network base address, and
write the joined config back into the network. -/
def phase1 : List (String × NetworkConf) → Used → Res (List (String × NetworkConf) × Used)
  | [], used => Res.ok ([], used)
  | (name, net) :: rest, used =>
    if net.external || net.ipam.isEmpty then
      (phase1 rest used).bind (fun p => Res.ok ((name, net) :: p.1, p.2))
    else
      match net.ipam with
      | [] => Res.err "unreachable: guarded by isEmpty"
      | cfg0 :: cfgRest =>
        let cfg := joinIpam cfg0 cfgRest
        if cfg.subnet = "" then
          Res.err ("network " ++ name ++ " has no subnet specified")
        else if (Initrd.splitOnChar '/' cfg.subnet.data).length ≠ 2 then
          Res.err ("network " ++ name ++ " has an invalid subnet specified")
        else
          match parseCIDR cfg.subnet with
          | none => Res.err ("failed to parse " ++ name ++ " network subnet")
          | some (ipOrig, m, base) =>
            (if cfg.gateway = "" then Res.ok (ipToString ipOrig)
              else
                match parseIP4 cfg.gateway with
                | none => Res.err ("failed to parse " ++ name ++ " network gateway")
                | some gip =>
                  if ipContains m base gip then Res.ok cfg.gateway
                  else Res.err ("network " ++ name ++ " gateway is not within the subnet")).bind
            (fun gw =>
              let used1 := setU used name [gw, ipToString base]
              let net' := { net with ipam := { cfg with gateway := gw } :: cfgRest }
              (phase1 rest used1).bind (fun p => Res.ok ((name, net') :: p.1, p.2)))

/-- Static-address marking for the attachments of one service: a reference
to an unknown network is an error; a static address on an IPAM-less network
is an error; otherwise the address is written into the inner map (a panic
when that network never got an inner map, i.e. external networks with IPAM
config). -/
def markStaticsAtts (nets : List (String × NetworkConf)) (svcName : String) :
    List (String × Option SvcNetAttach) → Used → Res Used
  | [], used => Res.ok used
  | (name, att) :: rest, used =>
    match lookupNet nets name with
    | none =>
      Res.err ("service " ++ svcName ++ " references non-existent network " ++ name)
    | some net =>
      match att with
      | some a =>
        if a.ipv4 ≠ "" then
          if net.ipam.isEmpty then
            Res.err ("cannot assign IP address to service " ++ svcName ++ " on network " ++
              name ++ " without IPAM config")
          else
            (addUsed used name a.ipv4).bind (fun used1 =>
              markStaticsAtts nets svcName rest used1)
        else markStaticsAtts nets svcName rest used
      | none => markStaticsAtts nets svcName rest used

/-- Second pass of AssignIPs: mark every static address of every service. -/
def markStatics (nets : List (String × NetworkConf)) :
    List (String × ServiceConf) → Used → Res Used
  | [], used => Res.ok used
  | (_, svc) :: rest, used =>
    match svc.networks with
    | none => markStatics nets rest used
    | some atts =>
      (markStaticsAtts nets svc.name atts used).bind (fun used1 =>
        markStatics nets rest used1)

/-- The scan loop: starting from the subnet base, advance while the address
is inside the subnet and its string is reserved.  The fuel bounds the number
of reserved strings the loop can consume and is not reached for the fuel
passed by the caller (one more than the reserved-list length). -/
def scanFree (usedList : List String) (m base : Nat) : Nat → Nat → Option Nat
  | 0, _ => none
  | fuel + 1, ip =>
    if ipContains m base ip && usedList.contains (ipToString ip) then
      scanFree usedList m base fuel (increaseIP ip)
    else some ip

/-- Assignment for the attachments of one service: a nil attachment becomes
an empty config; attachments with a static address or on an IPAM-less (or
unknown) network are kept; otherwise scan from the subnet base for the first
free address, fail when the scan leaves the subnet, assign the address and
reserve it (the reservation write panics on a nil inner map). -/
def assignAtts (nets : List (String × NetworkConf)) :
    List (String × Option SvcNetAttach) → Used →
      Res (List (String × Option SvcNetAttach) × Used)
  | [], used => Res.ok ([], used)
  | (name, att) :: rest, used =>
    let att0 : SvcNetAttach := att.getD ⟨""⟩
    let ipamCfgs := ((lookupNet nets name).map (fun n => n.ipam)).getD []
    if att0.ipv4 ≠ "" || ipamCfgs.isEmpty then
      (assignAtts nets rest used).bind (fun p =>
        Res.ok ((name, some att0) :: p.1, p.2))
    else
      match ipamCfgs with
      | [] => Res.err "unreachable: guarded by isEmpty"
      | cfg :: _ =>
        match parseCIDR cfg.subnet with
        | none => Res.err ("failed to parse network " ++ name ++ " subnet")
        | some (_, m, base) =>
          let usedList := (lookupU used name).getD []
          match scanFree usedList m base (usedList.length + 1) base with
          | none => Res.diverged
          | some ip =>
            if !(ipContains m base ip) then
              Res.err ("not enough free IP addresses in network " ++ name)
            else
              (addUsed used name (ipToString ip)).bind (fun used1 =>
                (assignAtts nets rest used1).bind (fun p =>
                  Res.ok ((name, some (⟨ipToString ip⟩ : SvcNetAttach)) :: p.1, p.2)))

/-- Third pass of AssignIPs: transform every service, assigning addresses to
its attachments; the reserved map is threaded through (the Go pass runs in
parallel but every scan-and-reserve is one critical section under the single
mutex, so every schedule equals some sequential order of the attachments). -/
def assignServices (nets : List (String × NetworkConf)) :
    List (String × ServiceConf) → Used → Res (List (String × ServiceConf) × Used)
  | [], used => Res.ok ([], used)
  | (key, svc) :: rest, used =>
    match svc.networks with
    | none =>
      (assignServices nets rest used).bind (fun p =>
        Res.ok ((key, svc) :: p.1, p.2))
    | some atts =>
      (assignAtts nets atts used).bind (fun q =>
        (assignServices nets rest q.2).bind (fun p =>
          Res.ok ((key, { svc with networks := some q.1 }) :: p.1, p.2)))

/-- Project.AssignIPs: reserve gateways and network addresses, mark statics,
then assign the remaining attachments. -/
def AssignIPs (proj : Project) : Res Project :=
  (phase1 proj.networks []).bind (fun p =>
    (markStatics p.1 proj.services p.2).bind (fun used1 =>
      (assignServices p.1 proj.services used1).bind (fun q =>
        Res.ok ⟨p.1, q.1⟩)))

/-- Claim C10: a valid project with an external network carrying a non-empty
IPAM config and a service attached to it makes AssignIPs panic on the nil
inner reserved-address map (which is created only for networks that are
neither external nor IPAM-less), both when the attachment has a static
address (the static-marking write) and when it has none (the reservation
write after the scan); AssignIPs is not total over such projects. -/
theorem c10_external_ipam_panics :
    AssignIPs ⟨[("ext", ⟨"ext", true, [⟨"10.0.0.0/24", ""⟩]⟩)],
        [("s", ⟨"s", some [("ext", some ⟨"10.0.0.9"⟩)]⟩)]⟩ = Res.panicked ∧
    AssignIPs ⟨[("ext", ⟨"ext", true, [⟨"10.0.0.0/24", ""⟩]⟩)],
        [("s", ⟨"s", some [("ext", none)]⟩)]⟩ = Res.panicked := by
  constructor
  · rfl
  · rfl

theorem lookupU_setU_self (u : Used) (k : String) (v : List String) :
    lookupU (setU u k v) k = some v := by
  induction u with
  | nil => simp [setU, lookupU]
  | cons p rest ih =>
    by_cases hp : p.1 = k
    · simp [setU, lookupU, hp, List.find?]
    · have hp' : (p.1 == k) = false := beq_eq_false_iff_ne.2 hp
      simp only [setU, hp', Bool.false_eq_true, if_false]
      simpa [lookupU, List.find?, hp'] using ih

theorem lookupU_setU_ne (u : Used) (k k' : String) (v : List String) (h : k ≠ k') :
    lookupU (setU u k v) k' = lookupU u k' := by
  have hkk : (k == k') = false := beq_eq_false_iff_ne.2 h
  induction u with
  | nil => simp [setU, lookupU, List.find?, hkk]
  | cons p rest ih =>
    by_cases hp : p.1 = k
    · have hpk' : (p.1 == k') = false := beq_eq_false_iff_ne.2 (by rw [hp]; exact h)
      simp [setU, hp, lookupU, List.find?, hkk, hpk']
    · have hp' : (p.1 == k) = false := beq_eq_false_iff_ne.2 hp
      simp only [setU, hp', Bool.false_eq_true, if_false]
      by_cases hq : p.1 = k'
      · simp [lookupU, List.find?, hq]
      · have hq' : (p.1 == k') = false := beq_eq_false_iff_ne.2 hq
        simpa [lookupU, List.find?, hq'] using ih

/-- An attachment is empty when it is nil or its address is the empty
string. -/
def attEmpty (o : Option SvcNetAttach) : Bool :=
  match o with
  | none => true
  | some a => a.ipv4 == ""

def attAddr (o : Option SvcNetAttach) : String :=
  match o with
  | none => ""
  | some a => a.ipv4

def svcAtts (svc : ServiceConf) : List (String × Option SvcNetAttach) :=
  svc.networks.getD []

/-- The addresses the assignment pass gave to attachments of one service on
the given network: positions whose attachment was empty before and holds an
address after. -/
def assignedInAtts (netName : String)
    (origAtts newAtts : List (String × Option SvcNetAttach)) : List String :=
  ((origAtts.zip newAtts).filter
    (fun q => q.1.1 == netName && attEmpty q.1.2 && !attEmpty q.2.2)).map
    (fun q => attAddr q.2.2)

/-- All addresses the assignment pass gave on the given network, over the
positionally matched services of the original and resulting project. -/
def assignedAddrs (netName : String) (orig new : List (String × ServiceConf)) :
    List String :=
  ((orig.zip new).map (fun q => assignedInAtts netName (svcAtts q.1.2) (svcAtts q.2.2))).flatten

/-- The static addresses declared on the given network by the attachments of
one service. -/
def staticsInAtts (netName : String) (atts : List (String × Option SvcNetAttach)) :
    List String :=
  (atts.filter (fun q => q.1 == netName && !attEmpty q.2)).map (fun q => attAddr q.2)

/-- The static addresses declared on the given network across a project. -/
def staticAddrs (netName : String) (svcs : List (String × ServiceConf)) : List String :=
  (svcs.map (fun p => staticsInAtts netName (svcAtts p.2))).flatten

theorem attEmpty_getD (att : Option SvcNetAttach) :
    attEmpty (some (att.getD ⟨""⟩)) = attEmpty att := by
  cases att <;> simp [attEmpty, Option.getD]

theorem ipToString_ne_empty (v : Nat) : ipToString v ≠ "" := by
  intro h
  have hd := congrArg String.data h
  simp only [ipToString, String.data_append] at hd
  simp at hd

theorem scanFree_spec (usedList : List String) (m base : Nat) :
    ∀ fuel ip r, scanFree usedList m base fuel ip = some r →
      (ipContains m base r && usedList.contains (ipToString r)) = false := by
  intro fuel
  induction fuel with
  | zero => intro ip r h; cases h
  | succ n ih =>
    intro ip r h
    unfold scanFree at h
    split at h
    · exact ih _ r h
    · rename_i hcond
      cases h
      simpa using hcond

theorem addUsed_ok (u : Used) (k a : String) (u' : Used)
    (h : addUsed u k a = Res.ok u') :
    ∃ l, lookupU u k = some l ∧ u' = setU u k (a :: l) := by
  unfold addUsed at h
  cases hl : lookupU u k with
  | none => rw [hl] at h; cases h
  | some l =>
    rw [hl] at h
    cases h
    exact ⟨l, rfl, rfl⟩

/-- The reserved map grows pointwise: present entries stay present and only
gain elements, absent keys stay absent. -/
def UsedExt (u u' : Used) : Prop :=
  (∀ k l, lookupU u k = some l → ∃ l', lookupU u' k = some l' ∧ l ⊆ l') ∧
  (∀ k, lookupU u k = none → lookupU u' k = none)

theorem usedExt_refl (u : Used) : UsedExt u u :=
  ⟨fun _ l h => ⟨l, h, fun _ hx => hx⟩, fun _ h => h⟩

theorem usedExt_trans {u v w : Used} (h1 : UsedExt u v) (h2 : UsedExt v w) :
    UsedExt u w := by
  refine ⟨fun k l hl => ?_, fun k hk => h2.2 k (h1.2 k hk)⟩
  obtain ⟨l1, hl1, hs1⟩ := h1.1 k l hl
  obtain ⟨l2, hl2, hs2⟩ := h2.1 k l1 hl1
  exact ⟨l2, hl2, fun x hx => hs2 (hs1 hx)⟩

theorem usedExt_addUsed {u u' : Used} {k a : String} (h : addUsed u k a = Res.ok u') :
    UsedExt u u' := by
  obtain ⟨l, hl, rfl⟩ := addUsed_ok u k a u' h
  constructor
  · intro k' l' hl'
    by_cases hk : k = k'
    · subst hk
      have heq := Option.some.inj (hl.symm.trans hl')
      subst heq
      exact ⟨a :: l, lookupU_setU_self u k (a :: l), fun x hx => List.mem_cons_of_mem a hx⟩
    · exact ⟨l', by rw [lookupU_setU_ne u k k' _ hk]; exact hl', fun _ hx => hx⟩
  · intro k' hk'
    by_cases hk : k = k'
    · subst hk; rw [hk'] at hl; cases hl
    · rw [lookupU_setU_ne u k k' _ hk]; exact hk'

theorem markStaticsAtts_ext (nets : List (String × NetworkConf)) (svcName : String) :
    ∀ (atts : List (String × Option SvcNetAttach)) (used used' : Used),
      markStaticsAtts nets svcName atts used = Res.ok used' → UsedExt used used' := by
  intro atts
  induction atts with
  | nil =>
    intro used used' h
    cases h
    exact usedExt_refl _
  | cons q rest ih =>
    intro used used' h
    unfold markStaticsAtts at h
    obtain ⟨name, att⟩ := q
    cases hnet : lookupNet nets name with
    | none => rw [hnet] at h; cases h
    | some net =>
      rw [hnet] at h
      cases att with
      | none => exact ih used used' h
      | some a =>
        simp only at h
        by_cases hip : a.ipv4 ≠ ""
        · rw [if_pos hip] at h
          by_cases hempty : net.ipam.isEmpty
          · rw [if_pos hempty] at h; cases h
          · rw [if_neg hempty] at h
            cases hadd : addUsed used name a.ipv4 with
            | ok used1 =>
              rw [hadd] at h
              exact usedExt_trans (usedExt_addUsed hadd) (ih used1 used' h)
            | err e => rw [hadd] at h; cases h
            | panicked => rw [hadd] at h; cases h
            | diverged => rw [hadd] at h; cases h
        · rw [if_neg hip] at h
          exact ih used used' h

theorem markStatics_ext (nets : List (String × NetworkConf)) :
    ∀ (svcs : List (String × ServiceConf)) (used used' : Used),
      markStatics nets svcs used = Res.ok used' → UsedExt used used' := by
  intro svcs
  induction svcs with
  | nil =>
    intro used used' h
    cases h
    exact usedExt_refl _
  | cons p rest ih =>
    intro used used' h
    unfold markStatics at h
    cases hn : p.2.networks with
    | none => rw [hn] at h; exact ih used used' h
    | some atts =>
      rw [hn] at h
      simp only [] at h
      cases hm : markStaticsAtts nets p.2.name atts used with
      | ok used1 =>
        rw [hm] at h
        exact usedExt_trans (markStaticsAtts_ext nets p.2.name atts used used1 hm)
          (ih used1 used' h)
      | err e => rw [hm] at h; cases h
      | panicked => rw [hm] at h; cases h
      | diverged => rw [hm] at h; cases h

/-- Inversion of one successful step of assignAtts: either the attachment was
kept (static address or IPAM-less network) and the rest processed with the
same reserved map, or an address was scanned, found inside the subnet, not
reserved, then reserved before processing the rest. -/
theorem assignAtts_cons_ok (nets : List (String × NetworkConf))
    (name : String) (att : Option SvcNetAttach)
    (rest : List (String × Option SvcNetAttach)) (used : Used)
    (out : List (String × Option SvcNetAttach) × Used)
    (h : assignAtts nets ((name, att) :: rest) used = Res.ok out) :
    ((decide ((att.getD ⟨""⟩).ipv4 ≠ "") ||
        (((lookupNet nets name).map (fun n => n.ipam)).getD []).isEmpty) = true ∧
      ∃ p, assignAtts nets rest used = Res.ok p ∧
        out = ((name, some (att.getD ⟨""⟩)) :: p.1, p.2)) ∨
    (∃ cfg cfgs ip0 m base ip l p,
      (att.getD ⟨""⟩).ipv4 = "" ∧
      ((lookupNet nets name).map (fun n => n.ipam)).getD [] = cfg :: cfgs ∧
      parseCIDR cfg.subnet = some (ip0, m, base) ∧
      scanFree ((lookupU used name).getD []) m base
        (((lookupU used name).getD []).length + 1) base = some ip ∧
      ipContains m base ip = true ∧
      lookupU used name = some l ∧
      assignAtts nets rest (setU used name (ipToString ip :: l)) = Res.ok p ∧
      out = ((name, some (⟨ipToString ip⟩ : SvcNetAttach)) :: p.1, p.2)) := by
  unfold assignAtts at h
  simp only [] at h
  by_cases hcond : (decide ((att.getD ⟨""⟩).ipv4 ≠ "") ||
      (((lookupNet nets name).map (fun n => n.ipam)).getD []).isEmpty) = true
  · rw [if_pos hcond] at h
    left
    refine ⟨hcond, ?_⟩
    cases hrec : assignAtts nets rest used with
    | ok p =>
      rw [hrec] at h
      unfold Res.bind at h
      cases h
      exact ⟨p, rfl, rfl⟩
    | err e => rw [hrec] at h; cases h
    | panicked => rw [hrec] at h; cases h
    | diverged => rw [hrec] at h; cases h
  · rw [if_neg hcond] at h
    right
    cases hcfgs : ((lookupNet nets name).map (fun n => n.ipam)).getD [] with
    | nil => rw [hcfgs] at h; simp only [] at h; cases h
    | cons cfg cfgs =>
      rw [hcfgs] at h
      simp only [] at h
      cases hparse : parseCIDR cfg.subnet with
      | none => rw [hparse] at h; simp only [] at h; cases h
      | some trip =>
        obtain ⟨ip0, m, base⟩ := trip
        rw [hparse] at h
        simp only [] at h
        cases hscan : scanFree ((lookupU used name).getD []) m base
            (((lookupU used name).getD []).length + 1) base with
        | none => rw [hscan] at h; simp only [] at h; cases h
        | some ip =>
          rw [hscan] at h
          simp only [] at h
          by_cases hcont : (!(ipContains m base ip)) = true
          · rw [if_pos hcont] at h; cases h
          · rw [if_neg hcont] at h
            cases hadd : addUsed used name (ipToString ip) with
            | ok used1 =>
              rw [hadd] at h
              unfold Res.bind at h
              simp only [] at h
              cases hrec : assignAtts nets rest used1 with
              | ok p =>
                rw [hrec] at h
                simp only [] at h
                cases h
                obtain ⟨l, hl, hset⟩ := addUsed_ok used name (ipToString ip) used1 hadd
                subst hset
                refine ⟨cfg, cfgs, ip0, m, base, ip, l, p, ?_, rfl, hparse, hscan,
                  ?_, hl, hrec, rfl⟩
                · by_contra hne
                  exact hcond (by simp [hne])
                · simpa using hcont
              | err e => rw [hrec] at h; simp only [] at h; cases h
              | panicked => rw [hrec] at h; simp only [] at h; cases h
              | diverged => rw [hrec] at h; simp only [] at h; cases h
            | err e => rw [hadd] at h; unfold Res.bind at h; simp only [] at h; cases h
            | panicked => rw [hadd] at h; unfold Res.bind at h; simp only [] at h; cases h
            | diverged => rw [hadd] at h; unfold Res.bind at h; simp only [] at h; cases h


theorem attEmpty_eq_getD (att : Option SvcNetAttach) :
    attEmpty att = ((att.getD ⟨""⟩).ipv4 == "") := by
  cases att <;> simp [attEmpty, Option.getD]

theorem contains_false_not_mem {l : List String} {a : String}
    (h : l.contains a = false) : a ∉ l := by
  intro hm
  have := List.elem_eq_true_of_mem hm
  rw [show l.contains a = l.elem a from rfl, this] at h
  cases h

theorem usedExt_setU_cons {u : Used} {k a : String} {l : List String}
    (hl : lookupU u k = some l) : UsedExt u (setU u k (a :: l)) := by
  exact usedExt_addUsed (show addUsed u k a = Res.ok (setU u k (a :: l)) from by
    unfold addUsed
    rw [hl])

theorem assignAtts_usedExt (nets : List (String × NetworkConf)) :
    ∀ (atts : List (String × Option SvcNetAttach)) (used : Used)
      (out : List (String × Option SvcNetAttach) × Used),
      assignAtts nets atts used = Res.ok out → UsedExt used out.2 := by
  intro atts
  induction atts with
  | nil =>
    intro used out h
    cases h
    exact usedExt_refl _
  | cons q rest ih =>
    intro used out h
    obtain ⟨name, att⟩ := q
    rcases assignAtts_cons_ok nets name att rest used out h with
      ⟨_, p, hrec, hout⟩ | ⟨cfg, cfgs, ip0, m, base, ip, l, p, _, _, _, _, _, hl, hrec, hout⟩
    · subst hout
      exact ih used p hrec
    · subst hout
      exact usedExt_trans (usedExt_setU_cons hl) (ih _ p hrec)

/-- Inversion of one successful step of assignServices. -/
theorem assignServices_cons_ok (nets : List (String × NetworkConf))
    (key : String) (svc : ServiceConf) (rest : List (String × ServiceConf))
    (used : Used) (out : List (String × ServiceConf) × Used)
    (h : assignServices nets ((key, svc) :: rest) used = Res.ok out) :
    (svc.networks = none ∧ ∃ p, assignServices nets rest used = Res.ok p ∧
      out = ((key, svc) :: p.1, p.2)) ∨
    (∃ atts q p, svc.networks = some atts ∧
      assignAtts nets atts used = Res.ok q ∧
      assignServices nets rest q.2 = Res.ok p ∧
      out = ((key, { svc with networks := some q.1 }) :: p.1, p.2)) := by
  unfold assignServices at h
  cases hn : svc.networks with
  | none =>
    rw [hn] at h
    simp only [] at h
    left
    refine ⟨rfl, ?_⟩
    cases hrec : assignServices nets rest used with
    | ok p =>
      rw [hrec] at h
      unfold Res.bind at h
      cases h
      exact ⟨p, rfl, rfl⟩
    | err e => rw [hrec] at h; unfold Res.bind at h; cases h
    | panicked => rw [hrec] at h; unfold Res.bind at h; cases h
    | diverged => rw [hrec] at h; unfold Res.bind at h; cases h
  | some atts =>
    rw [hn] at h
    simp only [] at h
    right
    cases ha : assignAtts nets atts used with
    | ok q =>
      rw [ha] at h
      unfold Res.bind at h
      simp only [] at h
      cases hrec : assignServices nets rest q.2 with
      | ok p =>
        rw [hrec] at h
        simp only [] at h
        cases h
        exact ⟨atts, q, p, rfl, ha, hrec, rfl⟩
      | err e => rw [hrec] at h; simp only [] at h; cases h
      | panicked => rw [hrec] at h; simp only [] at h; cases h
      | diverged => rw [hrec] at h; simp only [] at h; cases h
    | err e => rw [ha] at h; unfold Res.bind at h; simp only [] at h; cases h
    | panicked => rw [ha] at h; unfold Res.bind at h; simp only [] at h; cases h
    | diverged => rw [ha] at h; unfold Res.bind at h; simp only [] at h; cases h

theorem assignServices_usedExt (nets : List (String × NetworkConf)) :
    ∀ (svcs : List (String × ServiceConf)) (used : Used)
      (out : List (String × ServiceConf) × Used),
      assignServices nets svcs used = Res.ok out → UsedExt used out.2 := by
  intro svcs
  induction svcs with
  | nil =>
    intro used out h
    cases h
    exact usedExt_refl _
  | cons q rest ih =>
    intro used out h
    obtain ⟨key, svc⟩ := q
    rcases assignServices_cons_ok nets key svc rest used out h with
      ⟨_, p, hrec, hout⟩ | ⟨atts, qq, p, _, ha, hrec, hout⟩
    · subst hout
      exact ih used p hrec
    · subst hout
      exact usedExt_trans (assignAtts_usedExt nets atts used qq ha) (ih _ p hrec)

theorem staticsInAtts_cons (k name : String) (att : Option SvcNetAttach)
    (rest : List (String × Option SvcNetAttach)) :
    staticsInAtts k ((name, att) :: rest) =
      if ((name == k) && !attEmpty att) = true then attAddr att :: staticsInAtts k rest
      else staticsInAtts k rest := by
  simp only [staticsInAtts, List.filter_cons]
  split
  · rfl
  · rfl

theorem markStaticsAtts_records (nets : List (String × NetworkConf)) (svcName : String) :
    ∀ (atts : List (String × Option SvcNetAttach)) (used used' : Used),
      markStaticsAtts nets svcName atts used = Res.ok used' →
      ∀ k a, a ∈ staticsInAtts k atts → ∃ l', lookupU used' k = some l' ∧ a ∈ l' := by
  intro atts
  induction atts with
  | nil =>
    intro used used' h k a ha
    simp [staticsInAtts] at ha
  | cons q rest ih =>
    intro used used' h k a ha
    obtain ⟨name, att⟩ := q
    rw [staticsInAtts_cons] at ha
    unfold markStaticsAtts at h
    cases hnet : lookupNet nets name with
    | none => rw [hnet] at h; cases h
    | some net =>
      rw [hnet] at h
      simp only [] at h
      cases att with
      | none =>
        rw [if_neg (by simp [attEmpty])] at ha
        exact ih used used' h k a ha
      | some sa =>
        simp only [] at h
        by_cases hip : sa.ipv4 ≠ ""
        · rw [if_pos hip] at h
          by_cases hempty : net.ipam.isEmpty
          · rw [if_pos hempty] at h; cases h
          · rw [if_neg hempty] at h
            cases hadd : addUsed used name sa.ipv4 with
            | ok used1 =>
              rw [hadd] at h
              unfold Res.bind at h
              by_cases hk : ((name == k) && !attEmpty (some sa)) = true
              · rw [if_pos hk] at ha
                have hk2 := hk
                simp only [Bool.and_eq_true, beq_iff_eq] at hk2
                have hkk : name = k := hk2.1
                subst hkk
                rcases List.mem_cons.1 ha with rfl | ha
                · obtain ⟨l, hl, hset⟩ := addUsed_ok used name sa.ipv4 used1 hadd
                  have h1 : lookupU used1 name = some (sa.ipv4 :: l) := by
                    rw [hset]; exact lookupU_setU_self used name (sa.ipv4 :: l)
                  obtain ⟨l2, hl2, hsub⟩ :=
                    (markStaticsAtts_ext nets svcName rest used1 used' h).1 name _ h1
                  refine ⟨l2, hl2, hsub ?_⟩
                  simp only [attAddr]
                  exact List.mem_cons_self _ _
                · exact ih used1 used' h name a ha
              · rw [if_neg hk] at ha
                exact ih used1 used' h k a ha
            | err e => rw [hadd] at h; unfold Res.bind at h; cases h
            | panicked => rw [hadd] at h; unfold Res.bind at h; cases h
            | diverged => rw [hadd] at h; unfold Res.bind at h; cases h
        · rw [if_neg hip] at h
          have hemp : attEmpty (some sa) = true := by
            simp only [attEmpty]
            simpa using hip
          rw [if_neg (by simp [hemp])] at ha
          exact ih used used' h k a ha

theorem markStatics_records (nets : List (String × NetworkConf)) :
    ∀ (svcs : List (String × ServiceConf)) (used used' : Used),
      markStatics nets svcs used = Res.ok used' →
      ∀ k a, a ∈ staticAddrs k svcs → ∃ l', lookupU used' k = some l' ∧ a ∈ l' := by
  intro svcs
  induction svcs with
  | nil =>
    intro used used' h k a ha
    simp [staticAddrs] at ha
  | cons q rest ih =>
    intro used used' h k a ha
    unfold markStatics at h
    simp only [staticAddrs, List.map_cons, List.flatten_cons, List.mem_append] at ha
    cases hn : q.2.networks with
    | none =>
      rw [hn] at h
      rcases ha with ha | ha
      · simp [svcAtts, hn, staticsInAtts] at ha
      · exact ih used used' h k a (by simpa [staticAddrs] using ha)
    | some atts =>
      rw [hn] at h
      simp only [] at h
      cases hm : markStaticsAtts nets q.2.name atts used with
      | ok used1 =>
        rw [hm] at h
        unfold Res.bind at h
        rcases ha with ha | ha
        · rw [svcAtts, hn] at ha
          obtain ⟨l1, hl1, hmem⟩ :=
            markStaticsAtts_records nets q.2.name atts used used1 hm k a (by simpa using ha)
          obtain ⟨l2, hl2, hsub⟩ := (markStatics_ext nets rest used1 used' h).1 k l1 hl1
          exact ⟨l2, hl2, hsub hmem⟩
        · exact ih used1 used' h k a (by simpa [staticAddrs] using ha)
      | err e => rw [hm] at h; unfold Res.bind at h; cases h
      | panicked => rw [hm] at h; unfold Res.bind at h; cases h
      | diverged => rw [hm] at h; unfold Res.bind at h; cases h

theorem assignedInAtts_cons (netName name nameB : String) (a b : Option SvcNetAttach)
    (r r' : List (String × Option SvcNetAttach)) :
    assignedInAtts netName ((name, a) :: r) ((nameB, b) :: r') =
      if ((name == netName) && attEmpty a && !attEmpty b) = true
      then attAddr b :: assignedInAtts netName r r'
      else assignedInAtts netName r r' := by
  simp only [assignedInAtts, List.zip_cons_cons, List.filter_cons]
  split
  · rfl
  · rfl

theorem assignedInAtts_nil (netName : String) (r : List (String × Option SvcNetAttach)) :
    assignedInAtts netName [] r = [] := by
  simp [assignedInAtts]

theorem assignedInAtts_self (netName : String) :
    ∀ atts : List (String × Option SvcNetAttach), assignedInAtts netName atts atts = [] := by
  intro atts
  induction atts with
  | nil => exact assignedInAtts_nil netName []
  | cons q rest ih =>
    obtain ⟨name, a⟩ := q
    rw [assignedInAtts_cons, if_neg]
    · exact ih
    · cases h : attEmpty a <;> simp [h]

theorem assignAtts_assigned (nets : List (String × NetworkConf)) (netName : String)
    (net0 : NetworkConf) (hnet : lookupNet nets netName = some net0)
    (cfg : IpamPool) (cfgs : List IpamPool) (hipam : net0.ipam = cfg :: cfgs)
    (ip0 m base : Nat) (hparse : parseCIDR cfg.subnet = some (ip0, m, base)) :
    ∀ (atts : List (String × Option SvcNetAttach)) (used : Used)
      (out : List (String × Option SvcNetAttach) × Used),
      assignAtts nets atts used = Res.ok out →
      (assignedInAtts netName atts out.1).Nodup ∧
      ∀ a ∈ assignedInAtts netName atts out.1,
        (∃ v, a = ipToString v ∧ ipContains m base v = true) ∧
        (∀ l, lookupU used netName = some l → a ∉ l) ∧
        (∃ l', lookupU out.2 netName = some l' ∧ a ∈ l') := by
  intro atts
  induction atts with
  | nil =>
    intro used out h
    cases h
    constructor
    · rw [assignedInAtts_nil]
      exact List.nodup_nil
    · intro a ha
      rw [assignedInAtts_nil] at ha
      cases ha
  | cons q rest ih =>
    intro used out h
    obtain ⟨name, att⟩ := q
    rcases assignAtts_cons_ok nets name att rest used out h with
      ⟨hcond, p, hrec, hout⟩ |
      ⟨cfgA, cfgsA, ip0A, mA, baseA, ip, l, p, hemp, hcfgs, hparseA, hscan, hcont, hl,
        hrec, hout⟩
    · subst hout
      simp only []
      rw [assignedInAtts_cons, if_neg]
      · exact ih used p hrec
      · rw [attEmpty_getD]
        cases hae : attEmpty att <;> simp [hae]
    · subst hout
      simp only []
      by_cases hname : name = netName
      · subst hname
        rw [hnet] at hcfgs
        simp only [Option.map_some', Option.getD_some] at hcfgs
        rw [hipam] at hcfgs
        obtain ⟨rfl, rfl⟩ : cfgA = cfg ∧ cfgsA = cfgs := by
          cases hcfgs
          exact ⟨rfl, rfl⟩
        have htrip : (ip0, m, base) = (ip0A, mA, baseA) :=
          Option.some.inj (hparse.symm.trans hparseA)
        obtain ⟨rfl, rfl, rfl⟩ : ip0 = ip0A ∧ m = mA ∧ base = baseA := by
          simpa [Prod.ext_iff] using htrip
        have hattE : attEmpty att = true := by
          rw [attEmpty_eq_getD, hemp]
          rfl
        have hnewE : attEmpty (some (⟨ipToString ip⟩ : SvcNetAttach)) = false := by
          simp only [attEmpty]
          exact beq_eq_false_iff_ne.2 (ipToString_ne_empty ip)
        rw [assignedInAtts_cons, if_pos (by simp [hattE, hnewE])]
        have hused1 : lookupU (setU used name (ipToString ip :: l)) name =
            some (ipToString ip :: l) := lookupU_setU_self used name _
        obtain ⟨hnodupR, hmemR⟩ := ih _ p hrec
        have hnotin : ipToString ip ∉ l := by
          have hsc := scanFree_spec ((lookupU used name).getD []) m base _ base ip hscan
          rw [hcont, Bool.true_and] at hsc
          have := contains_false_not_mem hsc
          rw [hl] at this
          exact this
        constructor
        · refine List.Nodup.cons ?_ hnodupR
          intro hmem
          have := (hmemR _ hmem).2.1 (ipToString ip :: l) hused1
          exact this (List.mem_cons_self _ _)
        · intro a ha
          rcases List.mem_cons.1 ha with rfl | ha
          · refine ⟨⟨ip, rfl, hcont⟩, ?_, ?_⟩
            · intro l0 hl0
              have := Option.some.inj (hl.symm.trans hl0)
              subst this
              exact hnotin
            · obtain ⟨l2, hl2, hsub⟩ :=
                (assignAtts_usedExt nets rest _ p hrec).1 name _ hused1
              exact ⟨l2, hl2, hsub (List.mem_cons_self _ _)⟩
          · obtain ⟨hc, hn, hm'⟩ := hmemR a ha
            refine ⟨hc, ?_, hm'⟩
            intro l0 hl0
            have := Option.some.inj (hl.symm.trans hl0)
            subst this
            have := hn (ipToString ip :: l) hused1
            exact fun hx => this (List.mem_cons_of_mem _ hx)
      · have hbeq : (name == netName) = false := beq_eq_false_iff_ne.2 hname
        rw [assignedInAtts_cons, if_neg (by simp [hbeq])]
        have htrans : lookupU (setU used name (ipToString ip :: l)) netName =
            lookupU used netName := lookupU_setU_ne used name netName _ hname
        obtain ⟨hnodupR, hmemR⟩ := ih _ p hrec
        refine ⟨hnodupR, ?_⟩
        intro a ha
        obtain ⟨hc, hn, hm'⟩ := hmemR a ha
        refine ⟨hc, ?_, hm'⟩
        intro l0 hl0
        exact hn l0 (by rw [htrans]; exact hl0)

theorem assignedAddrs_cons (netName k k' : String) (s s' : ServiceConf)
    (r r' : List (String × ServiceConf)) :
    assignedAddrs netName ((k, s) :: r) ((k', s') :: r') =
      assignedInAtts netName (svcAtts s) (svcAtts s') ++ assignedAddrs netName r r' := by
  simp [assignedAddrs, List.zip_cons_cons]

theorem assignServices_assigned (nets : List (String × NetworkConf)) (netName : String)
    (net0 : NetworkConf) (hnet : lookupNet nets netName = some net0)
    (cfg : IpamPool) (cfgs : List IpamPool) (hipam : net0.ipam = cfg :: cfgs)
    (ip0 m base : Nat) (hparse : parseCIDR cfg.subnet = some (ip0, m, base)) :
    ∀ (svcs : List (String × ServiceConf)) (used : Used)
      (out : List (String × ServiceConf) × Used),
      assignServices nets svcs used = Res.ok out →
      (assignedAddrs netName svcs out.1).Nodup ∧
      ∀ a ∈ assignedAddrs netName svcs out.1,
        (∃ v, a = ipToString v ∧ ipContains m base v = true) ∧
        (∀ l, lookupU used netName = some l → a ∉ l) ∧
        (∃ l', lookupU out.2 netName = some l' ∧ a ∈ l') := by
  intro svcs
  induction svcs with
  | nil =>
    intro used out h
    cases h
    constructor
    · simp [assignedAddrs]
    · intro a ha
      simp [assignedAddrs] at ha
  | cons q rest ih =>
    intro used out h
    obtain ⟨key, svc⟩ := q
    rcases assignServices_cons_ok nets key svc rest used out h with
      ⟨hn, p, hrec, hout⟩ | ⟨atts, qq, p, hn, ha, hrec, hout⟩
    · subst hout
      simp only []
      rw [assignedAddrs_cons, assignedInAtts_self, List.nil_append]
      exact ih used p hrec
    · subst hout
      simp only []
      rw [assignedAddrs_cons]
      have hsvc' : svcAtts { svc with networks := some qq.1 } = qq.1 := rfl
      rw [hsvc']
      rw [show svcAtts svc = atts from by rw [svcAtts, hn]; rfl]
      obtain ⟨hnodA, hmemA⟩ :=
        assignAtts_assigned nets netName net0 hnet cfg cfgs hipam ip0 m base hparse
          atts used qq ha
      obtain ⟨hnodR, hmemR⟩ := ih qq.2 p hrec
      have hmonoS := assignServices_usedExt nets rest qq.2 p hrec
      have hmonoA := assignAtts_usedExt nets atts used qq ha
      constructor
      · refine List.Nodup.append hnodA hnodR ?_
        intro a haA haR
        obtain ⟨l', hl', hin⟩ := (hmemA a haA).2.2
        exact (hmemR a haR).2.1 l' hl' hin
      · intro a ha2
        rcases List.mem_append.1 ha2 with haA | haR
        · have hp := hmemA a haA
          refine ⟨hp.1, hp.2.1, ?_⟩
          obtain ⟨l', hl', hin⟩ := hp.2.2
          obtain ⟨l2, hl2, hsub⟩ := hmonoS.1 netName l' hl'
          exact ⟨l2, hl2, hsub hin⟩
        · obtain ⟨hc, hnot, hm'⟩ := hmemR a haR
          refine ⟨hc, ?_, hm'⟩
          intro l hl
          obtain ⟨l1, hl1, hsub⟩ := hmonoA.1 netName l hl
          exact fun hx => hnot l1 hl1 (hsub hx)

/-- Inversion of one successful step of phase1. -/
theorem phase1_cons_ok (name : String) (net : NetworkConf)
    (rest : List (String × NetworkConf)) (used : Used)
    (out : List (String × NetworkConf) × Used)
    (h : phase1 ((name, net) :: rest) used = Res.ok out) :
    ((net.external || net.ipam.isEmpty) = true ∧
      ∃ p, phase1 rest used = Res.ok p ∧ out = ((name, net) :: p.1, p.2)) ∨
    (∃ cfg0 cfgRest gw ip0 m base p,
      (net.external || net.ipam.isEmpty) = false ∧
      net.ipam = cfg0 :: cfgRest ∧
      parseCIDR (joinIpam cfg0 cfgRest).subnet = some (ip0, m, base) ∧
      phase1 rest (setU used name [gw, ipToString base]) = Res.ok p ∧
      out = ((name, { net with
        ipam := { joinIpam cfg0 cfgRest with gateway := gw } :: cfgRest }) :: p.1, p.2)) := by
  unfold phase1 at h
  by_cases hskip : (net.external || net.ipam.isEmpty) = true
  · rw [if_pos hskip] at h
    left
    refine ⟨hskip, ?_⟩
    cases hrec : phase1 rest used with
    | ok p =>
      rw [hrec] at h
      unfold Res.bind at h
      cases h
      exact ⟨p, rfl, rfl⟩
    | err e => rw [hrec] at h; unfold Res.bind at h; cases h
    | panicked => rw [hrec] at h; unfold Res.bind at h; cases h
    | diverged => rw [hrec] at h; unfold Res.bind at h; cases h
  · rw [if_neg hskip] at h
    right
    cases hipam : net.ipam with
    | nil => rw [hipam] at h; simp only [] at h; cases h
    | cons cfg0 cfgRest =>
      rw [hipam] at h
      simp only [] at h
      by_cases hsub : (joinIpam cfg0 cfgRest).subnet = ""
      · rw [if_pos hsub] at h; cases h
      · rw [if_neg hsub] at h
        by_cases hsplit :
            (Initrd.splitOnChar '/' (joinIpam cfg0 cfgRest).subnet.data).length ≠ 2
        · rw [if_pos hsplit] at h; cases h
        · rw [if_neg hsplit] at h
          cases hparse : parseCIDR (joinIpam cfg0 cfgRest).subnet with
          | none => rw [hparse] at h; simp only [] at h; cases h
          | some trip =>
            obtain ⟨ip0, m, base⟩ := trip
            rw [hparse] at h
            simp only [] at h
            by_cases hgw : (joinIpam cfg0 cfgRest).gateway = ""
            · rw [if_pos hgw] at h
              unfold Res.bind at h
              simp only [] at h
              cases hrec : phase1 rest (setU used name [ipToString ip0, ipToString base]) with
              | ok p =>
                rw [hrec] at h
                simp only [] at h
                cases h
                exact ⟨cfg0, cfgRest, ipToString ip0, ip0, m, base, p,
                  Bool.eq_false_iff.2 (by rw [← hipam]; exact hskip), rfl, hparse, hrec, rfl⟩
              | err e => rw [hrec] at h; simp only [] at h; cases h
              | panicked => rw [hrec] at h; simp only [] at h; cases h
              | diverged => rw [hrec] at h; simp only [] at h; cases h
            · rw [if_neg hgw] at h
              cases hgip : parseIP4 (joinIpam cfg0 cfgRest).gateway with
              | none => rw [hgip] at h; unfold Res.bind at h; simp only [] at h; cases h
              | some gip =>
                rw [hgip] at h
                simp only [] at h
                by_cases hcont : ipContains m base gip = true
                · rw [if_pos hcont] at h
                  unfold Res.bind at h
                  simp only [] at h
                  cases hrec : phase1 rest
                      (setU used name [(joinIpam cfg0 cfgRest).gateway, ipToString base]) with
                  | ok p =>
                    rw [hrec] at h
                    simp only [] at h
                    cases h
                    exact ⟨cfg0, cfgRest, (joinIpam cfg0 cfgRest).gateway, ip0, m, base, p,
                      Bool.eq_false_iff.2 (by rw [← hipam]; exact hskip), rfl, hparse, hrec, rfl⟩
                  | err e => rw [hrec] at h; simp only [] at h; cases h
                  | panicked => rw [hrec] at h; simp only [] at h; cases h
                  | diverged => rw [hrec] at h; simp only [] at h; cases h
                · rw [if_neg hcont] at h
                  unfold Res.bind at h
                  simp only [] at h
                  cases h

theorem lookupNet_cons (n : String) (v : NetworkConf) (r : List (String × NetworkConf))
    (k : String) :
    lookupNet ((n, v) :: r) k = if (n == k) = true then some v else lookupNet r k := by
  simp only [lookupNet, List.find?]
  cases h : (n == k) <;> simp [h, lookupNet]

theorem lookupNet_not_mem (r : List (String × NetworkConf)) (k : String)
    (h : k ∉ r.map Prod.fst) : lookupNet r k = none := by
  induction r with
  | nil => rfl
  | cons p r' ih =>
    simp only [List.map_cons, List.mem_cons] at h
    push_neg at h
    obtain ⟨p1, p2⟩ := p
    rw [lookupNet_cons, if_neg (by simp [beq_eq_false_iff_ne.2 (Ne.symm h.1)])]
    exact ih h.2

theorem phase1_spec :
    ∀ (nets : List (String × NetworkConf)) (used : Used)
      (out : List (String × NetworkConf) × Used),
      phase1 nets used = Res.ok out →
      (nets.map Prod.fst).Nodup →
      (∀ k, lookupNet nets k = none →
        lookupNet out.1 k = none ∧ lookupU out.2 k = lookupU used k) ∧
      (∀ k net0, lookupNet nets k = some net0 →
        ((net0.external = true ∨ net0.ipam = []) →
          lookupNet out.1 k = some net0 ∧ lookupU out.2 k = lookupU used k) ∧
        (net0.external = false → net0.ipam ≠ [] →
          ∃ cfg0 cfgRest gw ip0 m base,
            net0.ipam = cfg0 :: cfgRest ∧
            parseCIDR (joinIpam cfg0 cfgRest).subnet = some (ip0, m, base) ∧
            lookupNet out.1 k = some { net0 with
              ipam := { joinIpam cfg0 cfgRest with gateway := gw } :: cfgRest } ∧
            lookupU out.2 k = some [gw, ipToString base])) := by
  intro nets
  induction nets with
  | nil =>
    intro used out h _
    cases h
    constructor
    · intro k _
      exact ⟨rfl, rfl⟩
    · intro k net0 hk
      cases hk
  | cons q rest ih =>
    intro used out h hnodup
    obtain ⟨name, net⟩ := q
    have hnamenot : name ∉ rest.map Prod.fst := by
      simp only [List.map_cons, List.nodup_cons] at hnodup
      exact hnodup.1
    have hnodup' : (rest.map Prod.fst).Nodup := by
      simp only [List.map_cons, List.nodup_cons] at hnodup
      exact hnodup.2
    rcases phase1_cons_ok name net rest used out h with
      ⟨hskip, p, hrec, hout⟩ |
      ⟨cfg0, cfgRest, gw, ip0, m, base, p, hskipF, hipam, hparse, hrec, hout⟩
    · subst hout
      obtain ⟨IH1, IH2⟩ := ih used p hrec hnodup'
      constructor
      · intro k hk
        rw [lookupNet_cons] at hk
        by_cases hb : (name == k) = true
        · rw [if_pos hb] at hk; cases hk
        · rw [if_neg hb] at hk
          refine ⟨?_, (IH1 k hk).2⟩
          simp only []
          rw [lookupNet_cons, if_neg hb]
          exact (IH1 k hk).1
      · intro k net0 hk
        rw [lookupNet_cons] at hk
        by_cases hb : (name == k) = true
        · rw [if_pos hb] at hk
          have hnet0 : net0 = net := (Option.some.inj hk).symm
          subst hnet0
          have hkname : name = k := beq_iff_eq.1 hb
          subst hkname
          have hrestnone : lookupNet rest name = none := lookupNet_not_mem rest name hnamenot
          constructor
          · intro _
            refine ⟨?_, (IH1 name hrestnone).2⟩
            simp only []
            rw [lookupNet_cons, if_pos (by simp)]
          · intro hextF hipamNe
            exfalso
            rcases Bool.or_eq_true_iff.1 hskip with hx | hx
            · rw [hextF] at hx; cases hx
            · exact hipamNe (List.isEmpty_iff.1 hx)
        · rw [if_neg hb] at hk
          have hIH := IH2 k net0 hk
          constructor
          · intro hcase
            refine ⟨?_, (hIH.1 hcase).2⟩
            simp only []
            rw [lookupNet_cons, if_neg hb]
            exact (hIH.1 hcase).1
          · intro hextF hipamNe
            obtain ⟨c0, cR, g, i0, mm, bb, h1, h2, h3, h4⟩ := hIH.2 hextF hipamNe
            refine ⟨c0, cR, g, i0, mm, bb, h1, h2, ?_, h4⟩
            simp only []
            rw [lookupNet_cons, if_neg hb]
            exact h3
    · subst hout
      obtain ⟨IH1, IH2⟩ := ih (setU used name [gw, ipToString base]) p hrec hnodup'
      constructor
      · intro k hk
        rw [lookupNet_cons] at hk
        by_cases hb : (name == k) = true
        · rw [if_pos hb] at hk; cases hk
        · rw [if_neg hb] at hk
          have hne : name ≠ k := by
            intro hx
            rw [hx] at hb
            exact hb (by simp)
          refine ⟨?_, ?_⟩
          · simp only []
            rw [lookupNet_cons, if_neg hb]
            exact (IH1 k hk).1
          · rw [(IH1 k hk).2, lookupU_setU_ne used name k _ hne]
      · intro k net0 hk
        rw [lookupNet_cons] at hk
        by_cases hb : (name == k) = true
        · rw [if_pos hb] at hk
          have hnet0 : net0 = net := (Option.some.inj hk).symm
          subst hnet0
          have hkname : name = k := beq_iff_eq.1 hb
          subst hkname
          have hrestnone : lookupNet rest name = none := lookupNet_not_mem rest name hnamenot
          constructor
          · intro hcase
            exfalso
            have h1 := Bool.or_eq_false_iff.1 hskipF
            rcases hcase with hx | hx
            · rw [hx] at h1; cases h1.1
            · rw [hx] at h1
              simp at h1
          · intro _ _
            refine ⟨cfg0, cfgRest, gw, ip0, m, base, hipam, hparse, ?_, ?_⟩
            · simp only []
              rw [lookupNet_cons, if_pos (by simp)]
            · rw [(IH1 name hrestnone).2]
              exact lookupU_setU_self used name _
        · rw [if_neg hb] at hk
          have hne : name ≠ k := by
            intro hx
            rw [hx] at hb
            exact hb (by simp)
          have hIH := IH2 k net0 hk
          constructor
          · intro hcase
            refine ⟨?_, ?_⟩
            · simp only []
              rw [lookupNet_cons, if_neg hb]
              exact (hIH.1 hcase).1
            · rw [(hIH.1 hcase).2, lookupU_setU_ne used name k _ hne]
          · intro hextF hipamNe
            obtain ⟨c0, cR, g, i0, mm, bb, h1, h2, h3, h4⟩ := hIH.2 hextF hipamNe
            refine ⟨c0, cR, g, i0, mm, bb, h1, h2, ?_, h4⟩
            simp only []
            rw [lookupNet_cons, if_neg hb]
            exact h3

theorem assignIPs_ok_inv (proj proj' : Project) (h : AssignIPs proj = Res.ok proj') :
    ∃ nets1 used0 used1 svcs' used2,
      phase1 proj.networks [] = Res.ok (nets1, used0) ∧
      markStatics nets1 proj.services used0 = Res.ok used1 ∧
      assignServices nets1 proj.services used1 = Res.ok (svcs', used2) ∧
      proj' = ⟨nets1, svcs'⟩ := by
  unfold AssignIPs at h
  cases h1 : phase1 proj.networks [] with
  | ok p =>
    rw [h1] at h
    unfold Res.bind at h
    obtain ⟨nets1, used0⟩ := p
    simp only [] at h
    cases h2 : markStatics nets1 proj.services used0 with
    | ok used1 =>
      rw [h2] at h
      simp only [] at h
      cases h3 : assignServices nets1 proj.services used1 with
      | ok q =>
        rw [h3] at h
        simp only [] at h
        obtain ⟨svcs', used2⟩ := q
        cases h
        exact ⟨nets1, used0, used1, svcs', used2, rfl, h2, h3, rfl⟩
      | err e => rw [h3] at h; simp only [] at h; cases h
      | panicked => rw [h3] at h; simp only [] at h; cases h
      | diverged => rw [h3] at h; simp only [] at h; cases h
    | err e => rw [h2] at h; simp only [] at h; cases h
    | panicked => rw [h2] at h; simp only [] at h; cases h
    | diverged => rw [h2] at h; simp only [] at h; cases h
  | err e => rw [h1] at h; unfold Res.bind at h; simp only [] at h; cases h
  | panicked => rw [h1] at h; unfold Res.bind at h; simp only [] at h; cases h
  | diverged => rw [h1] at h; unfold Res.bind at h; simp only [] at h; cases h

/-- Claim C4: on every project on which AssignIPs succeeds (network names
unique, as Go map keys are), for every non-external network with IPAM
config in the result: the assigned addresses all lie inside the declared
subnet, are pairwise distinct (each address is reserved inside the critical
section before the next scan can observe the map), and none equals the
network gateway, the subnet network address, or any static address. -/
theorem c4_assignips_invariants (proj proj' : Project)
    (h : AssignIPs proj = Res.ok proj')
    (hnames : (proj.networks.map Prod.fst).Nodup) :
    ∀ netName net', lookupNet proj'.networks netName = some net' →
      net'.external = false → net'.ipam ≠ [] →
      ∃ cfg cfgs ip0 m base,
        net'.ipam = cfg :: cfgs ∧
        parseCIDR cfg.subnet = some (ip0, m, base) ∧
        (assignedAddrs netName proj.services proj'.services).Nodup ∧
        ∀ a ∈ assignedAddrs netName proj.services proj'.services,
          (∃ v, a = ipToString v ∧ ipContains m base v = true) ∧
          a ≠ cfg.gateway ∧
          a ≠ ipToString base ∧
          a ∉ staticAddrs netName proj.services := by
  obtain ⟨nets1, used0, used1, svcs', used2, h1, h2, h3, hproj⟩ :=
    assignIPs_ok_inv proj proj' h
  subst hproj
  intro netName net' hnet' hext hipamNe
  simp only [] at hnet'
  obtain ⟨S1, S2⟩ := phase1_spec proj.networks [] (nets1, used0) h1 hnames
  cases horig : lookupNet proj.networks netName with
  | none =>
    exfalso
    have := (S1 netName horig).1
    simp only [] at this
    rw [this] at hnet'
    cases hnet'
  | some net0 =>
    have hS := S2 netName net0 horig
    by_cases hcase : net0.external = true ∨ net0.ipam = []
    · exfalso
      have hsome := (hS.1 hcase).1
      simp only [] at hsome
      rw [hsome] at hnet'
      have : net0 = net' := Option.some.inj hnet'
      subst this
      rcases hcase with hx | hx
      · rw [hx] at hext; cases hext
      · exact hipamNe hx
    · push_neg at hcase
      have hextF : net0.external = false := by
        cases hx : net0.external
        · rfl
        · exact absurd hx hcase.1
      obtain ⟨cfg0, cfgRest, gw, ip0, m, base, hipam0, hparseJ, hlookN, hlookU⟩ :=
        hS.2 hextF hcase.2
      simp only [] at hlookN
      have hnet'eq : { net0 with
          ipam := { joinIpam cfg0 cfgRest with gateway := gw } :: cfgRest } = net' := by
        have hx := hnet'
        rw [hlookN] at hx
        exact Option.some.inj hx
      have hipam' : net'.ipam = { joinIpam cfg0 cfgRest with gateway := gw } :: cfgRest := by
        rw [← hnet'eq]
      refine ⟨{ joinIpam cfg0 cfgRest with gateway := gw }, cfgRest, ip0, m, base,
        hipam', hparseJ, ?_⟩
      obtain ⟨hnod, hmem⟩ := assignServices_assigned nets1 netName net' hnet'
        { joinIpam cfg0 cfgRest with gateway := gw } cfgRest hipam' ip0 m base hparseJ
        proj.services used1 (svcs', used2) h3
      refine ⟨hnod, ?_⟩
      intro a ha
      obtain ⟨hc, hnot, _⟩ := hmem a ha
      have hext01 := markStatics_ext nets1 proj.services used0 used1 h2
      obtain ⟨l1, hl1, hsub1⟩ := hext01.1 netName _ hlookU
      have hnotl1 : a ∉ l1 := hnot l1 hl1
      refine ⟨hc, ?_, ?_, ?_⟩
      · intro hx
        apply hnotl1
        apply hsub1
        rw [hx]
        exact List.mem_cons_self _ _
      · intro hx
        apply hnotl1
        apply hsub1
        rw [hx]
        exact List.mem_cons_of_mem _ (List.mem_cons_self _ _)
      · intro hx
        obtain ⟨l1', hl1', hin⟩ :=
          markStatics_records nets1 proj.services used0 used1 h2 netName a hx
        have : l1' = l1 := Option.some.inj (hl1'.symm.trans hl1)
        subst this
        exact hnotl1 hin

/-- Concrete project for the C4 witness: one 10.0.0.0/29 network with no
explicit gateway, one service with a static address and one with an empty
attachment. -/
def c4Proj : Project :=
  ⟨[("net0", ⟨"net0", false, [⟨"10.0.0.0/29", ""⟩]⟩)],
   [("a", ⟨"a", some [("net0", some ⟨"10.0.0.4"⟩)]⟩),
    ("b", ⟨"b", some [("net0", none)]⟩)]⟩

/-- The project AssignIPs produces from c4Proj: the joined gateway is the
subnet address 10.0.0.0, the static attachment is kept, and the empty
attachment receives 10.0.0.1 (the first free address after the reserved
gateway and base). -/
def c4ProjOut : Project :=
  ⟨[("net0", ⟨"net0", false, [⟨"10.0.0.0/29", "10.0.0.0"⟩]⟩)],
   [("a", ⟨"a", some [("net0", some ⟨"10.0.0.4"⟩)]⟩),
    ("b", ⟨"b", some [("net0", some ⟨"10.0.0.1"⟩)]⟩)]⟩

def c4NetOut : NetworkConf := ⟨"net0", false, [⟨"10.0.0.0/29", "10.0.0.0"⟩]⟩

theorem c4_witness :
    ∃ cfg cfgs ip0 m base,
      c4NetOut.ipam = cfg :: cfgs ∧
      parseCIDR cfg.subnet = some (ip0, m, base) ∧
      (assignedAddrs "net0" c4Proj.services c4ProjOut.services).Nodup ∧
      ∀ a ∈ assignedAddrs "net0" c4Proj.services c4ProjOut.services,
        (∃ v, a = ipToString v ∧ ipContains m base v = true) ∧
        a ≠ cfg.gateway ∧
        a ≠ ipToString base ∧
        a ∉ staticAddrs "net0" c4Proj.services :=
  c4_assignips_invariants c4Proj c4ProjOut (by rfl) (by decide)
    "net0" c4NetOut (by rfl) (by rfl) (by decide)

end Compose

/-
Dependency ordering of compose services
(src/unnamed/part_001, Project.ServicesOrderedByDependencies lines 272-308
and Project.ServicesReversedByDependencies lines 313-349).  Go map iteration
over types.Services and DependsOn is modelled in list order; the spec calls
both functions deterministic given input iteration order.  The zero
ServiceConfig returned by an absent project key and the zero DependsOn entry
are modelled explicitly.
-/

namespace Deps

/-- A compose service restricted to what the ordering functions read: its
name and the DependsOn map as a list of (dependency name, Required). -/
structure CService where
  name : String
  dependsOn : List (String × Bool)
deriving DecidableEq, Repr

abbrev DProj := List (String × CService)
abbrev DSt := List String × List CService

/-- The zero types.ServiceConfig a missing Go map key yields: empty name,
nil DependsOn. -/
def zeroService : CService := ⟨"", []⟩

/-- project.Services[name]: the service under the key, or the zero service
when the key is absent. -/
def findService (proj : DProj) (n : String) : CService :=
  ((proj.find? (fun p => p.1 == n)).map (fun p => p.2)).getD zeroService

/-- svc.DependsOn[k].Required, with the zero value false when the key is
absent. -/
def lookupDep (s : CService) (k : String) : Bool :=
  ((s.dependsOn.find? (fun d => d.1 == k)).map (fun d => d.2)).getD false

/-- The dependency loop of addDependenciesRecursevly, parameterized by the
recursive call: a dependency absent from the requested service set is
skipped unless expand is set; a required dependency not yet added is
recursed into; the DependsOn map iteration is modelled in list order. -/
def depLoopF (Snames : List String) (expand : Bool) (child : String → DSt → Option DSt) :
    List (String × Bool) → DSt → Option DSt
  | [], st => some st
  | d :: rest, st =>
    if !(Snames.contains d.1) && !expand then depLoopF Snames expand child rest st
    else if !(st.1.contains d.1) && d.2 then
      match child d.1 st with
      | none => none
      | some st1 => depLoopF Snames expand child rest st1
    else depLoopF Snames expand child rest st

/-- addDependenciesRecursevly of Project.ServicesOrderedByDependencies: mark
the service added, walk its DependsOn entries, then append the service to
the ordered output.  The Go recursion is unbounded; the fuel bounds the
nesting depth, and addRec_spec shows the fuel the top level passes is never
exhausted on well-formed projects. -/
def addRec (proj : DProj) (Snames : List String) (expand : Bool) :
    Nat → CService → DSt → Option DSt
  | 0, _, _ => none
  | fuel + 1, s, st =>
    (depLoopF Snames expand
        (fun n st1 => addRec proj Snames expand fuel (findService proj n) st1)
        s.dependsOn (s.name :: st.1, st.2)).map
      (fun st1 => (st1.1, st1.2 ++ [s]))

/-- The outer loop of both ordering functions: run the recursion on every
requested service not yet added. -/
def outerLoopF (f : CService → DSt → Option DSt) : List CService → DSt → Option DSt
  | [], st => some st
  | s :: rest, st =>
    if st.1.contains s.name then outerLoopF f rest st
    else match f s st with
      | none => none
      | some st1 => outerLoopF f rest st1

/-- Project.ServicesOrderedByDependencies: the requested services in
dependency order, required dependencies first. -/
def servicesOrderedByDependencies (proj : DProj) (S : List CService) (expand : Bool) :
    Option (List CService) :=
  (outerLoopF (addRec proj (S.map CService.name) expand (proj.length + 2)) S ([], [])).map
    (fun st => st.2)

/-- Modelled from the spec: service.GetDependents of the compose-go types
library (not part of this repository) returns the names of the project
services whose DependsOn holds this service's name; the spec describes the
reversed ordering as following dependants analogously. -/
def getDependents (proj : DProj) (s : CService) : List String :=
  (proj.filter (fun p => (p.2.dependsOn.map Prod.fst).contains s.name)).map
    (fun p => p.2.name)

/-- The dependants loop of addDependantsRecursevly: a dependant absent from
the requested set is skipped unless expand; a dependant not yet added whose
DependsOn entry for the parent is Required is recursed into. -/
def depLoopRevF (proj : DProj) (Snames : List String) (expand : Bool) (parent : String)
    (child : String → DSt → Option DSt) :
    List String → DSt → Option DSt
  | [], st => some st
  | n :: rest, st =>
    if !(Snames.contains n) && !expand then depLoopRevF proj Snames expand parent child rest st
    else if !(st.1.contains n) && lookupDep (findService proj n) parent then
      match child n st with
      | none => none
      | some st1 => depLoopRevF proj Snames expand parent child rest st1
    else depLoopRevF proj Snames expand parent child rest st

/-- addDependantsRecursevly of Project.ServicesReversedByDependencies. -/
def addRecRev (proj : DProj) (Snames : List String) (expand : Bool) :
    Nat → CService → DSt → Option DSt
  | 0, _, _ => none
  | fuel + 1, s, st =>
    (depLoopRevF proj Snames expand s.name
        (fun n st1 => addRecRev proj Snames expand fuel (findService proj n) st1)
        (getDependents proj s) (s.name :: st.1, st.2)).map
      (fun st1 => (st1.1, st1.2 ++ [s]))

/-- Project.ServicesReversedByDependencies: the requested services ordered
with dependants first. -/
def servicesReversedByDependencies (proj : DProj) (S : List CService) (expand : Bool) :
    Option (List CService) :=
  (outerLoopF (addRecRev proj (S.map CService.name) expand (proj.length + 2)) S ([], [])).map
    (fun st => st.2)

/-- The two-service example of the claims: web requires db. -/
def webC : CService := ⟨"web", [("db", true)]⟩
def dbC : CService := ⟨"db", []⟩
def webDbProj : DProj := [("web", webC), ("db", dbC)]

/-- A required dependency 2-cycle: web requires db and db requires web. -/
def webY : CService := ⟨"web", [("db", true)]⟩
def dbY : CService := ⟨"db", [("web", true)]⟩
def cycProj : DProj := [("web", webY), ("db", dbY)]

example : servicesOrderedByDependencies webDbProj [webC, dbC] false = some [dbC, webC] := by decide
example : servicesReversedByDependencies webDbProj [webC, dbC] false = some [webC, dbC] := by decide
example : servicesOrderedByDependencies cycProj [webY, dbY] false = some [dbY, webY] := by decide
example : servicesReversedByDependencies cycProj [webY, dbY] false = some [dbY, webY] := by decide



/-- Names of the services of an output list. -/
def outNames (l : List CService) : List String := l.map CService.name

/-- The number of project keys not yet in the added set; the fuel argument of
the embedded recursion is justified against this measure. -/
def missCount (proj : DProj) (added : List String) : Nat :=
  (proj.map Prod.fst).countP (fun k => !(added.contains k))

/-- Transitive closure of the root names under required dependency edges,
following the project's service table. -/
inductive ReqReach (proj : DProj) (roots : List String) : String → Prop
  | base (n : String) (h : n ∈ roots) : ReqReach proj roots n
  | step (n : String) (d : String × Bool) (h : ReqReach proj roots n)
      (hd : d ∈ (findService proj n).dependsOn) (hr : d.2 = true) :
      ReqReach proj roots d.1

/-- Every output element is the project's service for its own name, and its
required dependencies appear among the earlier output names. -/
def OutOK (proj : DProj) (out : List CService) : Prop :=
  ∀ i, ∀ hi : i < out.length,
    out.get ⟨i, hi⟩ = findService proj (out.get ⟨i, hi⟩).name ∧
    ∀ d ∈ (out.get ⟨i, hi⟩).dependsOn, d.2 = true → d.1 ∈ outNames (out.take i)

/-- The DFS state invariant: output names are recorded in the added set,
pairwise distinct, every output element is canonical with its required
dependencies preceding it, and the required dependencies of output elements
are recorded in the added set. -/
def SInv (proj : DProj) (st : DSt) : Prop :=
  (∀ a ∈ st.2, a.name ∈ st.1) ∧
  (outNames st.2).Nodup ∧
  OutOK proj st.2 ∧
  (∀ a ∈ st.2, ∀ d ∈ a.dependsOn, d.2 = true → d.1 ∈ st.1)

theorem memS_of_contains {l : List String} {a : String} (h : l.contains a = true) :
    a ∈ l := by simpa using h

theorem not_memS_of_contains_false {l : List String} {a : String}
    (h : l.contains a = false) : a ∉ l := by
  intro hm
  have : l.contains a = true := by simpa using hm
  rw [this] at h
  cases h

theorem findService_of_mem (proj : DProj) (hnd : (proj.map Prod.fst).Nodup)
    (k : String) (s : CService) (h : (k, s) ∈ proj) : findService proj k = s := by
  induction proj with
  | nil => cases h
  | cons p rest ih =>
    rcases List.mem_cons.1 h with heq | hmem
    · subst heq
      simp [findService, List.find?]
    · have hk : k ∈ rest.map Prod.fst := List.mem_map.2 ⟨(k, s), hmem, rfl⟩
      have hne : p.1 ≠ k := by
        intro hx
        rw [List.map_cons, List.nodup_cons] at hnd
        exact hnd.1 (hx ▸ hk)
      have hb : (p.1 == k) = false := beq_eq_false_iff_ne.2 hne
      simp only [findService, List.find?, hb]
      exact ih (by rw [List.map_cons, List.nodup_cons] at hnd; exact hnd.2) hmem

theorem findService_mem_of_key (proj : DProj) (k : String)
    (h : k ∈ proj.map Prod.fst) : (k, findService proj k) ∈ proj := by
  obtain ⟨p, hp, hpk⟩ := List.mem_map.1 h
  cases hf : List.find? (fun q => q.1 == k) proj with
  | none =>
    exfalso
    have := List.find?_eq_none.1 hf p hp
    rw [hpk] at this
    simp at this
  | some q =>
    have hqm : q ∈ proj := List.mem_of_find?_eq_some hf
    have hqk := List.find?_some hf
    have hq1 : q.1 = k := by simpa using hqk
    have : findService proj k = q.2 := by simp [findService, hf]
    rw [this, ← hq1]
    exact hqm

theorem countP_lt_of_mem {α : Type} (l : List α) (p q : α → Bool)
    (himp : ∀ x, p x = true → q x = true) (k : α) (hk : k ∈ l)
    (hp : p k = false) (hq : q k = true) : l.countP p < l.countP q := by
  induction l with
  | nil => cases hk
  | cons a rest ih =>
    rw [List.countP_cons, List.countP_cons]
    have hmono : rest.countP p ≤ rest.countP q :=
      List.countP_mono_left (fun x _ hx => himp x hx)
    rcases List.mem_cons.1 hk with heq | hmem
    · subst heq
      rw [hp, hq]
      simp
      omega
    · have hlt := ih hmem
      cases hpa : p a with
      | true =>
        rw [himp a hpa]
        simp
        omega
      | false =>
        cases hqa : q a with
        | true => simp; omega
        | false => simp; omega

theorem missCount_le (proj : DProj) (added : List String) :
    missCount proj added ≤ proj.length := by
  have : (proj.map Prod.fst).countP (fun k => !(added.contains k)) ≤
      (proj.map Prod.fst).length := List.countP_le_length _
  simpa [missCount] using this

theorem missCount_anti (proj : DProj) (a a' : List String)
    (h : ∀ x ∈ a, x ∈ a') : missCount proj a' ≤ missCount proj a := by
  apply List.countP_mono_left
  intro x _ hx
  simp only [Bool.not_eq_true'] at hx ⊢
  cases hc : a.contains x with
  | false => rfl
  | true =>
    exfalso
    have : x ∈ a' := h x (memS_of_contains hc)
    have : a'.contains x = true := by simpa using this
    rw [this] at hx
    cases hx

theorem containsS_false_of_not_mem {l : List String} {a : String} (h : a ∉ l) :
    l.contains a = false := by
  cases hc : l.contains a with
  | false => rfl
  | true => exact absurd (memS_of_contains hc) h

theorem missCount_cons_lt (proj : DProj) (added : List String) (k : String)
    (hkey : k ∈ proj.map Prod.fst) (hnot : k ∉ added) :
    missCount proj (k :: added) < missCount proj added := by
  refine countP_lt_of_mem (proj.map Prod.fst) _ _ ?_ k hkey ?_ ?_
  · intro x hx
    simp only [Bool.not_eq_true'] at hx ⊢
    exact containsS_false_of_not_mem
      (fun hm => (not_memS_of_contains_false hx) (List.mem_cons_of_mem _ hm))
  · have : (k :: added).contains k = true := by simp
    rw [this]
    rfl
  · rw [containsS_false_of_not_mem hnot]
    rfl

theorem reqReach_mono (proj : DProj) (r1 r2 : List String)
    (hsub : ∀ x ∈ r1, x ∈ r2) (n : String) (h : ReqReach proj r1 n) :
    ReqReach proj r2 n := by
  induction h with
  | base m hm => exact ReqReach.base m (hsub m hm)
  | step m d _ hd hr ih => exact ReqReach.step m d ih hd hr

theorem reqReach_bind (proj : DProj) (r1 r2 : List String) (n : String)
    (h : ReqReach proj r2 n) (hall : ∀ x ∈ r2, ReqReach proj r1 x) :
    ReqReach proj r1 n := by
  induction h with
  | base m hm => exact hall m hm
  | step m d _ hd hr ih => exact ReqReach.step m d ih hd hr

theorem outOK_append (proj : DProj) (out : List CService) (s : CService)
    (h : OutOK proj out) (hcanon : s = findService proj s.name)
    (hdeps : ∀ d ∈ s.dependsOn, d.2 = true → d.1 ∈ outNames out) :
    OutOK proj (out ++ [s]) := by
  intro i hi
  rcases Nat.lt_or_ge i out.length with hlt | hge
  · have hget : (out ++ [s]).get ⟨i, hi⟩ = out.get ⟨i, hlt⟩ := by
      simp only [List.get_eq_getElem]
      exact List.getElem_append_left hlt
    have htake : (out ++ [s]).take i = out.take i := by
      rw [List.take_append_eq_append_take]
      have : i - out.length = 0 := by omega
      rw [this]
      simp
    rw [hget, htake]
    exact h i hlt
  · have hieq : i = out.length := by
      have : i < out.length + 1 := by simpa using hi
      omega
    subst hieq
    have hget : (out ++ [s]).get ⟨out.length, hi⟩ = s :=
      List.getElem_concat_length out s out.length rfl (by simp)
    have htake : (out ++ [s]).take out.length = out := by
      rw [List.take_append_eq_append_take]
      simp
    rw [hget, htake]
    exact ⟨hcanon, hdeps⟩

theorem outOK_canon_of_mem (proj : DProj) (out : List CService) (a : CService)
    (h : OutOK proj out) (ha : a ∈ out) : a = findService proj a.name := by
  obtain ⟨i, hi, hget⟩ := List.mem_iff_getElem.1 ha
  have := (h i hi).1
  simpa [hget] using this



theorem outNames_append (a b : List CService) :
    outNames (a ++ b) = outNames a ++ outNames b := List.map_append _ _ _

/-- Specification of the dependency loop of addDependenciesRecursevly under
expand = true: given the child specification at fuel k, the loop succeeds and
preserves the state invariant, grows the added set and output monotonically,
records every required dependency of the processed list in the added set, and
every new output name is reachable from some processed required dependency. -/
theorem depLoop_spec (proj : DProj) (Sn : List String) (rank : String → Nat)
    (hwf : ∀ p ∈ proj, p.2.name = p.1)
    (hnd : (proj.map Prod.fst).Nodup)
    (k : Nat)
    (hchild : ∀ s st, (s.name, s) ∈ proj → s.name ∉ st.1 → SInv proj st →
      (∀ y ∈ st.1, y ∈ outNames st.2 ∨ rank s.name < rank y) →
      missCount proj (s.name :: st.1) + 2 ≤ k →
      ∃ st', addRec proj Sn true k s st = some st' ∧
        SInv proj st' ∧ (∀ y ∈ st.1, y ∈ st'.1) ∧
        (∀ y ∈ st'.1, y ∈ st.1 ∨ y ∈ outNames st'.2) ∧
        (∃ d0, st'.2 = st.2 ++ d0) ∧
        (∀ y ∈ outNames st'.2, y ∈ outNames st.2 ∨ y ∉ st.1) ∧
        (∀ y ∈ outNames st'.2, y ∈ outNames st.2 ∨ ReqReach proj [s.name] y) ∧
        s.name ∈ st'.1)
    (pn : String) :
    ∀ deps st,
      (∀ d ∈ deps, d.2 = true → rank d.1 < rank pn ∧ d.1 ∈ proj.map Prod.fst) →
      SInv proj st →
      (∀ y ∈ st.1, y ∈ outNames st.2 ∨ rank pn ≤ rank y) →
      missCount proj st.1 + 1 ≤ k →
      ∃ st', depLoopF Sn true
          (fun n st1 => addRec proj Sn true k (findService proj n) st1) deps st
            = some st' ∧
        SInv proj st' ∧
        (∀ y ∈ st.1, y ∈ st'.1) ∧
        (∀ y ∈ st'.1, y ∈ st.1 ∨ y ∈ outNames st'.2) ∧
        (∃ d0, st'.2 = st.2 ++ d0) ∧
        (∀ y ∈ outNames st'.2, y ∈ outNames st.2 ∨ y ∉ st.1) ∧
        (∀ y ∈ outNames st'.2, y ∈ outNames st.2 ∨
          ∃ d ∈ deps, d.2 = true ∧ ReqReach proj [d.1] y) ∧
        (∀ d ∈ deps, d.2 = true → d.1 ∈ st'.1) ∧
        (∀ y ∈ st'.1, y ∈ outNames st'.2 ∨ rank pn ≤ rank y) := by
  intro deps
  induction deps with
  | nil =>
    intro st _ hSInv hHS _
    refine ⟨st, rfl, hSInv, fun y hy => hy, fun y hy => Or.inl hy,
      ⟨[], (List.append_nil _).symm⟩, fun y hy => Or.inl hy, fun y hy => Or.inl hy,
      ?_, hHS⟩
    intro d hd
    cases hd
  | cons d rest ih =>
    intro st hdeps hSInv hHS hM
    have hstep : depLoopF Sn true
        (fun n st1 => addRec proj Sn true k (findService proj n) st1) (d :: rest) st
        = if (!(st.1.contains d.1) && d.2) = true then
            match addRec proj Sn true k (findService proj d.1) st with
            | none => none
            | some st1 => depLoopF Sn true
                (fun n st1 => addRec proj Sn true k (findService proj n) st1) rest st1
          else depLoopF Sn true
            (fun n st1 => addRec proj Sn true k (findService proj n) st1) rest st := by
      simp [depLoopF]
    cases hct : st.1.contains d.1 with
    | true =>
      rw [hstep]
      have hcond : (!(st.1.contains d.1) && d.2) = false := by rw [hct]; simp
      rw [hcond]
      simp only [Bool.false_eq_true, if_false]
      obtain ⟨st', heq, hS2, hmono2, hnew2, hΔ2, hfresh2, hclos2, hdin2, hHS2⟩ :=
        ih st (fun d' hd' hr => hdeps d' (List.mem_cons_of_mem _ hd') hr) hSInv hHS hM
      refine ⟨st', heq, hS2, hmono2, hnew2, hΔ2, hfresh2, ?_, ?_, hHS2⟩
      · intro y hy
        rcases hclos2 y hy with hl | ⟨d', hd', hr', hre'⟩
        · exact Or.inl hl
        · exact Or.inr ⟨d', List.mem_cons_of_mem _ hd', hr', hre'⟩
      · intro d' hd' hr'
        rcases List.mem_cons.1 hd' with rfl | hmem
        · exact hmono2 _ (memS_of_contains hct)
        · exact hdin2 d' hmem hr'
    | false =>
      cases hreq : d.2 with
      | false =>
        rw [hstep]
        have hcond : (!(st.1.contains d.1) && d.2) = false := by rw [hct, hreq]; simp
        rw [hcond]
        simp only [Bool.false_eq_true, if_false]
        obtain ⟨st', heq, hS2, hmono2, hnew2, hΔ2, hfresh2, hclos2, hdin2, hHS2⟩ :=
          ih st (fun d' hd' hr => hdeps d' (List.mem_cons_of_mem _ hd') hr) hSInv hHS hM
        refine ⟨st', heq, hS2, hmono2, hnew2, hΔ2, hfresh2, ?_, ?_, hHS2⟩
        · intro y hy
          rcases hclos2 y hy with hl | ⟨d', hd', hr', hre'⟩
          · exact Or.inl hl
          · exact Or.inr ⟨d', List.mem_cons_of_mem _ hd', hr', hre'⟩
        · intro d' hd' hr'
          rcases List.mem_cons.1 hd' with rfl | hmem
          · rw [hreq] at hr'; cases hr'
          · exact hdin2 d' hmem hr'
      | true =>
        have hdepd := hdeps d (List.mem_cons_self _ _) hreq
        have hpair : (d.1, findService proj d.1) ∈ proj :=
          findService_mem_of_key proj d.1 hdepd.2
        have hname : (findService proj d.1).name = d.1 := hwf _ hpair
        have hnotmem : d.1 ∉ st.1 := not_memS_of_contains_false hct
        obtain ⟨st1, heq1, hS1, hmono1, hnew1, hΔ1, hfresh1, hclos1, hsn1⟩ :=
          hchild (findService proj d.1) st (by rw [hname]; exact hpair)
            (by rw [hname]; exact hnotmem) hSInv
            (by
              intro y hy
              rcases hHS y hy with hl | hr
              · exact Or.inl hl
              · exact Or.inr (by rw [hname]; omega))
            (by
              rw [hname]
              have := missCount_cons_lt proj st.1 d.1 hdepd.2 hnotmem
              omega)
        obtain ⟨st2, heq2, hS2, hmono2, hnew2, hΔ2, hfresh2, hclos2, hdin2, hHS2⟩ :=
          ih st1 (fun d' hd' hr => hdeps d' (List.mem_cons_of_mem _ hd') hr) hS1
            (by
              intro y hy
              rcases hnew1 y hy with hl | hr
              · rcases hHS y hl with ho | hrk
                · refine Or.inl ?_
                  obtain ⟨d0, hd0⟩ := hΔ1
                  rw [hd0, outNames_append]
                  exact List.mem_append_left _ ho
                · exact Or.inr hrk
              · exact Or.inl hr)
            (by
              have := missCount_anti proj st.1 st1.1 hmono1
              omega)
        rw [hstep]
        have hcond : (!(st.1.contains d.1) && d.2) = true := by rw [hct, hreq]; simp
        rw [hcond]
        simp only [if_true]
        rw [heq1]
        simp only []
        refine ⟨st2, heq2, hS2, ?_, ?_, ?_, ?_, ?_, ?_, hHS2⟩
        · intro y hy
          exact hmono2 y (hmono1 y hy)
        · intro y hy
          rcases hnew2 y hy with hl | hr
          · rcases hnew1 y hl with hll | hlr
            · exact Or.inl hll
            · refine Or.inr ?_
              obtain ⟨d0, hd0⟩ := hΔ2
              rw [hd0, outNames_append]
              exact List.mem_append_left _ hlr
          · exact Or.inr hr
        · obtain ⟨d0, hd0⟩ := hΔ1
          obtain ⟨d1, hd1⟩ := hΔ2
          exact ⟨d0 ++ d1, by rw [hd1, hd0, List.append_assoc]⟩
        · intro y hy
          rcases hfresh2 y hy with hl | hr
          · rcases hfresh1 y hl with hll | hlr
            · exact Or.inl hll
            · exact Or.inr hlr
          · exact Or.inr (fun hm => hr (hmono1 y hm))
        · intro y hy
          rcases hclos2 y hy with hl | ⟨d', hd', hr', hre'⟩
          · rcases hclos1 y hl with hll | hlr
            · exact Or.inl hll
            · refine Or.inr ⟨d, List.mem_cons_self _ _, hreq, ?_⟩
              rw [hname] at hlr
              exact hlr
          · exact Or.inr ⟨d', List.mem_cons_of_mem _ hd', hr', hre'⟩
        · intro d' hd' hr'
          rcases List.mem_cons.1 hd' with rfl | hmem
          · refine hmono2 _ ?_
            rw [hname] at hsn1
            exact hsn1
          · exact hdin2 d' hmem hr'



/-- Specification of addDependenciesRecursevly under expand = true: with a
rank function witnessing acyclicity of the required edges and enough fuel,
the call succeeds, preserves the state invariant (including precedence of
required dependencies in the output), and the new output names are exactly
new added names, all reachable from the root. -/
theorem addRec_spec (proj : DProj) (Sn : List String) (rank : String → Nat)
    (hwf : ∀ p ∈ proj, p.2.name = p.1)
    (hnd : (proj.map Prod.fst).Nodup)
    (hrank : ∀ p ∈ proj, ∀ d ∈ p.2.dependsOn, d.2 = true → rank d.1 < rank p.1)
    (hclosed : ∀ p ∈ proj, ∀ d ∈ p.2.dependsOn, d.2 = true → d.1 ∈ proj.map Prod.fst) :
    ∀ fuel s st, (s.name, s) ∈ proj → s.name ∉ st.1 → SInv proj st →
      (∀ y ∈ st.1, y ∈ outNames st.2 ∨ rank s.name < rank y) →
      missCount proj (s.name :: st.1) + 2 ≤ fuel →
      ∃ st', addRec proj Sn true fuel s st = some st' ∧
        SInv proj st' ∧ (∀ y ∈ st.1, y ∈ st'.1) ∧
        (∀ y ∈ st'.1, y ∈ st.1 ∨ y ∈ outNames st'.2) ∧
        (∃ d0, st'.2 = st.2 ++ d0) ∧
        (∀ y ∈ outNames st'.2, y ∈ outNames st.2 ∨ y ∉ st.1) ∧
        (∀ y ∈ outNames st'.2, y ∈ outNames st.2 ∨ ReqReach proj [s.name] y) ∧
        s.name ∈ st'.1 := by
  intro fuel
  induction fuel with
  | zero =>
    intro s st _ _ _ _ hM
    omega
  | succ k ih =>
    intro s st hGS hnotin hSInv hHS hM
    have hcanon : findService proj s.name = s := findService_of_mem proj hnd s.name s hGS
    obtain ⟨st1, heq1, hS1, hmono1, hnew1, hΔ1, hfresh1, hclos1, hdin1, hHS1⟩ :=
      depLoop_spec proj Sn rank hwf hnd k ih s.name s.dependsOn (s.name :: st.1, st.2)
        (by
          intro d hd hr
          have h1 := hrank (s.name, s) hGS d hd hr
          have h2 := hclosed (s.name, s) hGS d hd hr
          exact ⟨h1, h2⟩)
        (by
          obtain ⟨hA, hB, hC, hD⟩ := hSInv
          exact ⟨fun a ha => List.mem_cons_of_mem _ (hA a ha), hB, hC,
            fun a ha d hd hr => List.mem_cons_of_mem _ (hD a ha d hd hr)⟩)
        (by
          intro y hy
          rcases List.mem_cons.1 hy with rfl | hmem
          · exact Or.inr (le_refl _)
          · rcases hHS y hmem with hl | hr
            · exact Or.inl hl
            · exact Or.inr (Nat.le_of_lt hr))
        (by
          show missCount proj (s.name :: st.1) + 1 ≤ k
          omega)
    have hstep : addRec proj Sn true (k + 1) s st
        = (depLoopF Sn true
            (fun n st1 => addRec proj Sn true k (findService proj n) st1)
            s.dependsOn (s.name :: st.1, st.2)).map
          (fun st1 => (st1.1, st1.2 ++ [s])) := rfl
    have hout : addRec proj Sn true (k + 1) s st = some (st1.1, st1.2 ++ [s]) := by
      rw [hstep, heq1]
      rfl
    have hsnotout1 : s.name ∉ outNames st1.2 := by
      intro hmem
      rcases hfresh1 s.name hmem with hl | hr
      · obtain ⟨a, ha, hna⟩ := List.mem_map.1 hl
        exact hnotin (hna ▸ hSInv.1 a ha)
      · exact hr (List.mem_cons_self _ _)
    have hdepsout : ∀ d ∈ s.dependsOn, d.2 = true → d.1 ∈ outNames st1.2 := by
      intro d hd hr
      have hin := hdin1 d hd hr
      rcases hHS1 d.1 hin with hl | hrk
      · exact hl
      · exfalso
        have h2 : rank d.1 < rank s.name := hrank (s.name, s) hGS d hd hr
        omega
    have hsn1 : s.name ∈ st1.1 := hmono1 _ (List.mem_cons_self _ _)
    refine ⟨(st1.1, st1.2 ++ [s]), hout, ?_, ?_, ?_, ?_, ?_, ?_, hsn1⟩
    · -- SInv of the final state
      obtain ⟨hA, hB, hC, hD⟩ := hS1
      refine ⟨?_, ?_, ?_, ?_⟩
      · intro a ha
        rcases List.mem_append.1 ha with hl | hr
        · exact hA a hl
        · rcases List.mem_singleton.1 hr with rfl
          exact hsn1
      · have : outNames (st1.2 ++ [s]) = outNames st1.2 ++ [s.name] := by
          rw [outNames_append]
          rfl
        rw [this]
        simp [List.nodup_append, hB, hsnotout1]
      · exact outOK_append proj st1.2 s hC hcanon.symm hdepsout
      · intro a ha d hd hr
        rcases List.mem_append.1 ha with hl | hrr
        · exact hD a hl d hd hr
        · rcases List.mem_singleton.1 hrr with rfl
          exact hdin1 d hd hr
    · intro y hy
      exact hmono1 y (List.mem_cons_of_mem _ hy)
    · intro y hy
      rcases hnew1 y hy with hl | hr
      · rcases List.mem_cons.1 hl with rfl | hmem
        · refine Or.inr ?_
          rw [outNames_append]
          exact List.mem_append_right _ (List.mem_singleton.2 rfl)
        · exact Or.inl hmem
      · refine Or.inr ?_
        rw [outNames_append]
        exact List.mem_append_left _ hr
    · obtain ⟨d0, hd0⟩ := hΔ1
      exact ⟨d0 ++ [s], by rw [hd0, List.append_assoc]⟩
    · intro y hy
      rw [outNames_append] at hy
      rcases List.mem_append.1 hy with hl | hr
      · rcases hfresh1 y hl with hll | hlr
        · exact Or.inl hll
        · exact Or.inr (fun hm => hlr (List.mem_cons_of_mem _ hm))
      · rcases List.mem_singleton.1 hr with rfl
        exact Or.inr hnotin
    · intro y hy
      rw [outNames_append] at hy
      rcases List.mem_append.1 hy with hl | hr
      · rcases hclos1 y hl with hll | ⟨d, hd, hrq, hre⟩
        · exact Or.inl hll
        · refine Or.inr (reqReach_bind proj [s.name] [d.1] y hre ?_)
          intro x hx
          rcases List.mem_singleton.1 hx with rfl
          refine ReqReach.step s.name d (ReqReach.base _ (List.mem_singleton.2 rfl)) ?_ hrq
          rw [hcanon]
          exact hd
      · rcases List.mem_singleton.1 hr with rfl
        exact Or.inr (ReqReach.base _ (List.mem_singleton.2 rfl))



/-- Specification of the outer loop of ServicesOrderedByDependencies under
expand = true: between top-level calls the added set coincides with the
output names, every requested root ends up added, and every output name is
reachable from some root. -/
theorem outerLoop_spec (proj : DProj) (Sn : List String) (rank : String → Nat)
    (hwf : ∀ p ∈ proj, p.2.name = p.1)
    (hnd : (proj.map Prod.fst).Nodup)
    (hrank : ∀ p ∈ proj, ∀ d ∈ p.2.dependsOn, d.2 = true → rank d.1 < rank p.1)
    (hclosed : ∀ p ∈ proj, ∀ d ∈ p.2.dependsOn, d.2 = true → d.1 ∈ proj.map Prod.fst)
    (fuel : Nat) (hfuel : proj.length + 2 ≤ fuel) :
    ∀ S st, (∀ s ∈ S, (s.name, s) ∈ proj) → SInv proj st →
      (∀ y ∈ st.1, y ∈ outNames st.2) →
      ∃ st', outerLoopF (addRec proj Sn true fuel) S st = some st' ∧
        SInv proj st' ∧ (∀ y ∈ st'.1, y ∈ outNames st'.2) ∧
        (∀ y ∈ st.1, y ∈ st'.1) ∧
        (∃ d0, st'.2 = st.2 ++ d0) ∧
        (∀ s ∈ S, s.name ∈ st'.1) ∧
        (∀ y ∈ outNames st'.2, y ∈ outNames st.2 ∨
          ∃ s ∈ S, ReqReach proj [s.name] y) := by
  intro S
  induction S with
  | nil =>
    intro st _ hSInv hTop
    refine ⟨st, rfl, hSInv, hTop, fun y hy => hy, ⟨[], (List.append_nil _).symm⟩, ?_, ?_⟩
    · intro s hs
      cases hs
    · exact fun y hy => Or.inl hy
  | cons s rest ih =>
    intro st hS hSInv hTop
    have hstep : outerLoopF (addRec proj Sn true fuel) (s :: rest) st
        = if st.1.contains s.name = true then
            outerLoopF (addRec proj Sn true fuel) rest st
          else match addRec proj Sn true fuel s st with
            | none => none
            | some st1 => outerLoopF (addRec proj Sn true fuel) rest st1 := by
      simp [outerLoopF]
    cases hct : st.1.contains s.name with
    | true =>
      rw [hstep, hct]
      simp only [if_true]
      obtain ⟨st', heq, hS2, hTop2, hmono2, hΔ2, hroots2, hclos2⟩ :=
        ih st (fun s' hs' => hS s' (List.mem_cons_of_mem _ hs')) hSInv hTop
      refine ⟨st', heq, hS2, hTop2, hmono2, hΔ2, ?_, ?_⟩
      · intro s' hs'
        rcases List.mem_cons.1 hs' with rfl | hmem
        · exact hmono2 _ (memS_of_contains hct)
        · exact hroots2 s' hmem
      · intro y hy
        rcases hclos2 y hy with hl | ⟨s', hs', hre⟩
        · exact Or.inl hl
        · exact Or.inr ⟨s', List.mem_cons_of_mem _ hs', hre⟩
    | false =>
      have hM : missCount proj (s.name :: st.1) + 2 ≤ fuel := by
        have := missCount_le proj (s.name :: st.1)
        omega
      obtain ⟨st1, heq1, hS1, hmono1, hnew1, hΔ1, hfresh1, hclos1, hsn1⟩ :=
        addRec_spec proj Sn rank hwf hnd hrank hclosed fuel s st
          (hS s (List.mem_cons_self _ _)) (not_memS_of_contains_false hct) hSInv
          (fun y hy => Or.inl (hTop y hy)) hM
      obtain ⟨st2, heq2, hS2, hTop2, hmono2, hΔ2, hroots2, hclos2⟩ :=
        ih st1 (fun s' hs' => hS s' (List.mem_cons_of_mem _ hs')) hS1
          (by
            intro y hy
            rcases hnew1 y hy with hl | hr
            · obtain ⟨d0, hd0⟩ := hΔ1
              rw [hd0, outNames_append]
              exact List.mem_append_left _ (hTop y hl)
            · exact hr)
      rw [hstep, hct]
      simp only [Bool.false_eq_true, if_false]
      rw [heq1]
      simp only []
      refine ⟨st2, heq2, hS2, hTop2, ?_, ?_, ?_, ?_⟩
      · intro y hy
        exact hmono2 y (hmono1 y hy)
      · obtain ⟨d0, hd0⟩ := hΔ1
        obtain ⟨d1, hd1⟩ := hΔ2
        exact ⟨d0 ++ d1, by rw [hd1, hd0, List.append_assoc]⟩
      · intro s' hs'
        rcases List.mem_cons.1 hs' with rfl | hmem
        · exact hmono2 _ hsn1
        · exact hroots2 s' hmem
      · intro y hy
        rcases hclos2 y hy with hl | ⟨s', hs', hre⟩
        · rcases hclos1 y hl with hll | hlr
          · exact Or.inl hll
          · exact Or.inr ⟨s, List.mem_cons_self _ _, hlr⟩
        · exact Or.inr ⟨s', List.mem_cons_of_mem _ hs', hre⟩



theorem mem_outNames {a : String} {l : List CService} :
    a ∈ outNames l ↔ ∃ s ∈ l, s.name = a := by
  simp [outNames]

/-- Claim C5 counterexample: the two services of cycProj require each other
(a required-dependency cycle), yet both ordering functions silently return
an ordering; their signatures carry no error and no CyclicDependency value
exists anywhere in the package. -/
theorem c5_counterexample :
    (("db", true) ∈ webY.dependsOn ∧ ("web", true) ∈ dbY.dependsOn) ∧
    servicesOrderedByDependencies cycProj [webY, dbY] false = some [dbY, webY] ∧
    servicesReversedByDependencies cycProj [webY, dbY] false = some [dbY, webY] := by
  refine ⟨⟨by decide, by decide⟩, by decide, by decide⟩

/-- Claim C5 (corrected): cycles of required dependencies are not detected
and no CyclicDependency error is reported: for every two distinct service
names forming a required 2-cycle, both ServicesOrderedByDependencies and
ServicesReversedByDependencies silently return the ordering that lists the
second service first (the added-set check merely breaks the recursion). -/
theorem c5_amended (na nb : String) (hne : na ≠ nb) :
    servicesOrderedByDependencies
        [(na, ⟨na, [(nb, true)]⟩), (nb, ⟨nb, [(na, true)]⟩)]
        [⟨na, [(nb, true)]⟩, ⟨nb, [(na, true)]⟩] false
      = some [⟨nb, [(na, true)]⟩, ⟨na, [(nb, true)]⟩] ∧
    servicesReversedByDependencies
        [(na, ⟨na, [(nb, true)]⟩), (nb, ⟨nb, [(na, true)]⟩)]
        [⟨na, [(nb, true)]⟩, ⟨nb, [(na, true)]⟩] false
      = some [⟨nb, [(na, true)]⟩, ⟨na, [(nb, true)]⟩] := by
  have h1 : (na == nb) = false := beq_eq_false_iff_ne.2 hne
  have h2 : (nb == na) = false := beq_eq_false_iff_ne.2 (Ne.symm hne)
  constructor
  · simp [servicesOrderedByDependencies, outerLoopF, addRec, depLoopF, findService,
      List.find?, h1, h2, hne, Ne.symm hne]
  · simp [servicesReversedByDependencies, outerLoopF, addRecRev, depLoopRevF, findService,
      getDependents, lookupDep, List.find?, List.filter, h1, h2, hne, Ne.symm hne]

/-- Witness for c5_amended at the names web and db. -/
theorem c5_witness :
    servicesOrderedByDependencies
        [("web", ⟨"web", [("db", true)]⟩), ("db", ⟨"db", [("web", true)]⟩)]
        [⟨"web", [("db", true)]⟩, ⟨"db", [("web", true)]⟩] false
      = some [⟨"db", [("web", true)]⟩, ⟨"web", [("db", true)]⟩] ∧
    servicesReversedByDependencies
        [("web", ⟨"web", [("db", true)]⟩), ("db", ⟨"db", [("web", true)]⟩)]
        [⟨"web", [("db", true)]⟩, ⟨"db", [("web", true)]⟩] false
      = some [⟨"db", [("web", true)]⟩, ⟨"web", [("db", true)]⟩] :=
  c5_amended "web" "db" (by decide)

/-- Claim C6: for every well-formed project (map keys are the service
names and are distinct, required dependencies resolve in the project, the
requested services belong to the project) whose required edges admit a rank
function (acyclicity), ServicesOrderedByDependencies(S, true) succeeds and
returns a duplicate-free sequence in which every required dependency of an
element appears among the earlier names, and whose name set is exactly the
transitive closure of the names of S under required edges; moreover on the
two-service project where web requires db, OrderedByDependencies over
[web, db] with expand false returns [db, web] and ReversedByDependencies
returns [web, db]. -/
theorem c6_ordered_correct (proj : DProj) (S : List CService) (rank : String → Nat)
    (hwf : ∀ p ∈ proj, p.2.name = p.1)
    (hnd : (proj.map Prod.fst).Nodup)
    (hrank : ∀ p ∈ proj, ∀ d ∈ p.2.dependsOn, d.2 = true → rank d.1 < rank p.1)
    (hclosed : ∀ p ∈ proj, ∀ d ∈ p.2.dependsOn, d.2 = true → d.1 ∈ proj.map Prod.fst)
    (hS : ∀ s ∈ S, (s.name, s) ∈ proj) :
    (∃ out, servicesOrderedByDependencies proj S true = some out ∧
      (outNames out).Nodup ∧
      (∀ i, ∀ hi : i < out.length, ∀ d ∈ (out.get ⟨i, hi⟩).dependsOn, d.2 = true →
        d.1 ∈ outNames (out.take i)) ∧
      (∀ n, n ∈ outNames out ↔ ReqReach proj (S.map CService.name) n)) ∧
    servicesOrderedByDependencies webDbProj [webC, dbC] false = some [dbC, webC] ∧
    servicesReversedByDependencies webDbProj [webC, dbC] false = some [webC, dbC] := by
  refine ⟨?_, by decide, by decide⟩
  have hSInv0 : SInv proj ([], []) := by
    refine ⟨?_, ?_, ?_, ?_⟩
    · intro a ha
      cases ha
    · simp [outNames]
    · intro i hi
      exact absurd hi (by simp)
    · intro a ha
      cases ha
  obtain ⟨st', heq, hS', hTop, _, hΔ, hroots, hclos⟩ :=
    outerLoop_spec proj (S.map CService.name) rank hwf hnd hrank hclosed
      (proj.length + 2) le_rfl S ([], []) hS hSInv0 (by intro y hy; cases hy)
  refine ⟨st'.2, ?_, hS'.2.1, ?_, ?_⟩
  · show (outerLoopF (addRec proj (S.map CService.name) true (proj.length + 2))
        S ([], [])).map (fun st => st.2) = some st'.2
    rw [heq]
    rfl
  · intro i hi d hd hr
    exact (hS'.2.2.1 i hi).2 d hd hr
  · intro n
    constructor
    · intro hn
      rcases hclos n hn with hl | ⟨s, hsS, hre⟩
      · rcases mem_outNames.1 hl with ⟨a, ha, _⟩
        cases ha
      · refine reqReach_mono proj [s.name] (S.map CService.name) ?_ n hre
        intro x hx
        rcases List.mem_singleton.1 hx with rfl
        exact List.mem_map.2 ⟨s, hsS, rfl⟩
    · intro hre
      induction hre with
      | base m hm =>
        obtain ⟨s, hsS, hsn⟩ := List.mem_map.1 hm
        exact hTop _ (hsn ▸ hroots s hsS)
      | step m d h hd hr ihd =>
        obtain ⟨a, ha, hna⟩ := mem_outNames.1 ihd
        have hcanon : a = findService proj a.name :=
          outOK_canon_of_mem proj st'.2 a hS'.2.2.1 ha
        have hda : d ∈ a.dependsOn := by
          rw [← hna] at hd
          rw [← hcanon] at hd
          exact hd
        have hd1 : d.1 ∈ st'.1 := hS'.2.2.2 a ha d hda hr
        exact hTop _ hd1

def c6Rank (n : String) : Nat := if n = "web" then 1 else 0

/-- Witness for c6_ordered_correct at the two-service project, with the
rank function placing web above db. -/
theorem c6_witness :
    (∃ out, servicesOrderedByDependencies webDbProj [webC, dbC] true = some out ∧
      (outNames out).Nodup ∧
      (∀ i, ∀ hi : i < out.length, ∀ d ∈ (out.get ⟨i, hi⟩).dependsOn, d.2 = true →
        d.1 ∈ outNames (out.take i)) ∧
      (∀ n, n ∈ outNames out ↔ ReqReach webDbProj ([webC, dbC].map CService.name) n)) ∧
    servicesOrderedByDependencies webDbProj [webC, dbC] false = some [dbC, webC] ∧
    servicesReversedByDependencies webDbProj [webC, dbC] false = some [webC, dbC] :=
  c6_ordered_correct webDbProj [webC, dbC] c6Rank (by decide) (by decide) (by decide)
    (by decide) (by decide)

end Deps
